import Mathlib

/-!
Shallow embedding of `landcarve` (src/landcarve/commands/realise.py):
the neighbour sampler, the per-cell triangulator, the `Mesh` model
(deduplicated vertex table plus ordered face list), the greedy
simplification pass, and the binary STL serializer.

Numeric conventions of the embedding:
* Python floats (numpy array values, coordinates, normals) are embedded as
  exact rationals `ℚ`; grid indices are `ℤ`, matching Python's
  unbounded ints (numpy index arithmetic never overflows at these sizes).
* The only irrational operation in the source is the square root used to
  normalise a face normal.  We canonicalise the cross product by its
  largest absolute component instead (an exact, computable scaling): two
  cross products have equal float-free L2 normalisations exactly when they
  have equal largest-component normalisations, so exact-equality tests on
  normals (the only way the program uses them) are preserved.
* Python dicts keyed by exact values are embedded as lists searched by
  first occurrence; `collections.OrderedDict` iteration order is list order.
* A Python `KeyError` / `IndexError` / `ZeroDivisionError` (missing dict
  key, bad list index, zero normal magnitude) is embedded as an `Option`
  result that is `none` on the raising path.
-/

/-- An exact (x, y, z) coordinate triple. -/
abbrev Point : Type := ℚ × ℚ × ℚ

/-- A face normal, stored canonically scaled (see header comment). -/
abbrev NVec : Type := ℚ × ℚ × ℚ

/-- A face `(normal, v1, v2, v3)` exactly as the source stores it in
`self.faces`. -/
abbrev Face : Type := NVec × ℕ × ℕ × ℕ

/-- The in-memory grid handed to `realise` by `raster_to_array`: a
rectangular array with shape `(dim0, dim1)` and a value at each index pair.
Out-of-range accesses never occur in the embedded code (they are guarded),
so a total value function is a faithful carrier. -/
structure Grid where
  dim0 : ℕ
  dim1 : ℕ
  val : ℤ → ℤ → ℚ

/-- `get_neighbour_value(index, arr, NODATA)` from the source: `None`
(embedded as `none`) for out-of-bounds or value ≤ NODATA, otherwise the
raw stored value.  The tuple shape `(index[0], index[1], value-or-None)`
is kept. -/
def get_neighbour_value (index : ℤ × ℤ) (arr : Grid) (NODATA : ℚ) :
    ℤ × ℤ × Option ℚ :=
  if index.1 < 0 ∨ (arr.dim0 : ℤ) ≤ index.1 ∨ index.2 < 0 ∨ (arr.dim1 : ℤ) ≤ index.2 then
    (index.1, index.2, none)
  else if arr.val index.1 index.2 ≤ NODATA then
    (index.1, index.2, none)
  else
    (index.1, index.2, some (arr.val index.1 index.2))

/-- The mesh: ordered deduplicated vertex table (`collections.OrderedDict`
mapping each point to its insertion position, embedded as the list of keys
in insertion order, so the index of a point is its list position) and the
ordered face list. -/
structure Mesh where
  vertices : List Point
  faces : List Face
deriving DecidableEq

/-- The mesh `Mesh()` starts with. -/
def Mesh.empty : Mesh := ⟨[], []⟩

/-- Position of the first occurrence of a point in the key list (the
index an `OrderedDict` stores for the key). -/
def firstIdx (p : Point) : List Point → ℕ
  | [] => 0
  | q :: l => if q = p then 0 else firstIdx p l + 1

/-- `Mesh.vertex_index`: return the vertex's index, adding it if needed.
(The source's `assert len(vertex) == 3` holds by the type of `Point`.) -/
def Mesh.vertex_index (m : Mesh) (vertex : Point) : Mesh × ℕ :=
  if vertex ∈ m.vertices then
    (m, firstIdx vertex m.vertices)
  else
    ({ m with vertices := m.vertices ++ [vertex] }, m.vertices.length)

/-- The cross product of `point2 − point1` and `point3 − point1`, exactly
as `add_triangle` computes it. -/
def triangleCross (point1 point2 point3 : Point) : ℚ × ℚ × ℚ :=
  let u : ℚ × ℚ × ℚ :=
    (point2.1 - point1.1, point2.2.1 - point1.2.1, point2.2.2 - point1.2.2)
  let v : ℚ × ℚ × ℚ :=
    (point3.1 - point1.1, point3.2.1 - point1.2.1, point3.2.2 - point1.2.2)
  (u.2.1 * v.2.2 - u.2.2 * v.2.1,
   u.2.2 * v.1 - u.1 * v.2.2,
   u.1 * v.2.1 - u.2.1 * v.1)

/-- The normal of `add_triangle`: the cross product canonically rescaled
(exact stand-in for the float L2 normalisation, see header comment).  For
collinear points the cross product is zero, its magnitude is `0.0`, and
the source's division raises `ZeroDivisionError` — embedded as `none`. -/
def triangleNormal? (point1 point2 point3 : Point) : Option NVec :=
  let n := triangleCross point1 point2 point3
  let mag : ℚ := max |n.1| (max |n.2.1| |n.2.2|)
  if mag = 0 then none
  else some (n.1 / mag, n.2.1 / mag, n.2.2 / mag)

/-- Success-path value of `triangleNormal?` (the `(0,0,0)` default is read
only on the raising path, on which the fallible primitives below return
`none` instead; the total primitives are their proved success
projections). -/
def triangleNormal (point1 point2 point3 : Point) : NVec :=
  (triangleNormal? point1 point2 point3).getD (0, 0, 0)

/-- `Mesh.add_triangle`: look up / create the three vertex indices in
order, then append the face `(normal, i1, i2, i3)`. -/
def Mesh.add_triangle (m : Mesh) (point1 point2 point3 : Point) : Mesh :=
  let r1 := m.vertex_index point1
  let r2 := r1.1.vertex_index point2
  let r3 := r2.1.vertex_index point3
  { r3.1 with
    faces := r3.1.faces ++ [(triangleNormal point1 point2 point3, r1.2, r2.2, r3.2)] }

/-- `Mesh.add_quad`: two triangles `(p1,p2,p4)` and `(p2,p3,p4)`. -/
def Mesh.add_quad (m : Mesh) (point1 point2 point3 point4 : Point) : Mesh :=
  (m.add_triangle point1 point2 point4).add_triangle point2 point3 point4

/-- `Mesh.add_surface`: the top triangle plus the mirrored bottom triangle
`(p1@bottom, p3@bottom, p2@bottom)` (reversed winding). -/
def Mesh.add_surface (m : Mesh) (point1 point2 point3 : Point) (bottom : ℚ) : Mesh :=
  ((m.add_triangle
      (point1.1, point1.2.1, point1.2.2)
      (point2.1, point2.2.1, point2.2.2)
      (point3.1, point3.2.1, point3.2.2)).add_triangle
      (point1.1, point1.2.1, bottom)
      (point3.1, point3.2.1, bottom)
      (point2.1, point2.2.1, bottom))

/-- `Mesh.add_edge`: the wall quad `(p1, p2, p2@bottom, p1@bottom)`. -/
def Mesh.add_edge (m : Mesh) (point1 point2 : Point) (bottom : ℚ) : Mesh :=
  m.add_quad
    (point1.1, point1.2.1, point1.2.2)
    (point2.1, point2.2.1, point2.2.2)
    (point2.1, point2.2.1, bottom)
    (point1.1, point1.2.1, bottom)

/-- `Mesh.add_triangle` with the source's error path: the vertex lookups
happen first, then the normal is computed — for collinear points the
magnitude is zero and Python raises `ZeroDivisionError`, aborting the call
(`none`; the exception is never caught, so no caller observes the
partially updated vertex table). -/
def Mesh.add_triangle? (m : Mesh) (point1 point2 point3 : Point) : Option Mesh :=
  match triangleNormal? point1 point2 point3 with
  | none => none
  | some n =>
    let r1 := m.vertex_index point1
    let r2 := r1.1.vertex_index point2
    let r3 := r2.1.vertex_index point3
    some { r3.1 with faces := r3.1.faces ++ [(n, r1.2, r2.2, r3.2)] }

/-- `Mesh.add_quad` with the error path of both triangle calls. -/
def Mesh.add_quad? (m : Mesh) (point1 point2 point3 point4 : Point) : Option Mesh :=
  (m.add_triangle? point1 point2 point4).bind
    fun m1 => m1.add_triangle? point2 point3 point4

/-- `Mesh.add_surface` with the error path of both triangle calls. -/
def Mesh.add_surface? (m : Mesh) (point1 point2 point3 : Point) (bottom : ℚ) :
    Option Mesh :=
  ((m.add_triangle?
      (point1.1, point1.2.1, point1.2.2)
      (point2.1, point2.2.1, point2.2.2)
      (point3.1, point3.2.1, point3.2.2)).bind
    fun m1 => m1.add_triangle?
      (point1.1, point1.2.1, bottom)
      (point3.1, point3.2.1, bottom)
      (point2.1, point2.2.1, bottom))

/-- `Mesh.add_edge` with the error path of its quad's triangle calls. -/
def Mesh.add_edge? (m : Mesh) (point1 point2 : Point) (bottom : ℚ) : Option Mesh :=
  m.add_quad?
    (point1.1, point1.2.1, point1.2.2)
    (point2.1, point2.2.1, point2.2.2)
    (point2.1, point2.2.1, bottom)
    (point1.1, point1.2.1, bottom)

/-- `vertex_index` never touches the face list. -/
theorem Mesh.vertex_index_faces (m : Mesh) (p : Point) :
    (m.vertex_index p).1.faces = m.faces := by
  unfold Mesh.vertex_index
  split_ifs <;> rfl

/-- `vertex_index` leaves the old vertex table as a prefix (it appends at
most one entry). -/
theorem Mesh.vertex_index_vertices (m : Mesh) (p : Point) :
    (m.vertex_index p).1.vertices = m.vertices
      ∨ (m.vertex_index p).1.vertices = m.vertices ++ [p] := by
  unfold Mesh.vertex_index
  split_ifs <;> simp

/-- Explicit description of the face appended by `add_triangle`. -/
theorem Mesh.add_triangle_faces (m : Mesh) (p1 p2 p3 : Point) :
    (m.add_triangle p1 p2 p3).faces
      = m.faces ++ [(triangleNormal p1 p2 p3, (m.vertex_index p1).2,
          ((m.vertex_index p1).1.vertex_index p2).2,
          (((m.vertex_index p1).1.vertex_index p2).1.vertex_index p3).2)] := by
  unfold Mesh.add_triangle
  simp [Mesh.vertex_index_faces]

/-- Quads append exactly two faces. -/
theorem Mesh.add_quad_faces (m : Mesh) (p1 p2 p3 p4 : Point) :
    ∃ f1 f2, (m.add_quad p1 p2 p3 p4).faces = m.faces ++ [f1, f2] := by
  unfold Mesh.add_quad
  rw [Mesh.add_triangle_faces, Mesh.add_triangle_faces, List.append_assoc]
  exact ⟨_, _, rfl⟩

/- ---------------------------------------------------------------------
C1.  The neighbour classification.
--------------------------------------------------------------------- -/

/-- C1, counterexample: with sentinel 0 and minimum floor 10, the 1×1 grid
holding the value 5 has its cell classified `Present 5` — the raw stored
value — although 5 lies strictly between the sentinel and the floor, so
the classification does *not* return the value raised to the floor
(`some 10`) as the claim states.  (`get_neighbour_value` in the source
never receives the minimum; only the centre value in `realise` is
clamped.) -/
theorem get_neighbour_value_no_floor :
    (get_neighbour_value (0, 0) ⟨1, 1, fun _ _ => 5⟩ 0).2.2 = some 5
    ∧ (get_neighbour_value (0, 0) ⟨1, 1, fun _ _ => 5⟩ 0).2.2 ≠ some 10
    ∧ (0 : ℚ) < 5 ∧ (5 : ℚ) < 10 := by decide

/-- C1, amended: the neighbour classification returns `Absent` (`none`)
exactly when the coordinate lies outside the grid bounds or the stored
value is ≤ the sentinel; otherwise it returns `Present` with the *raw*
stored value (no minimum floor is applied), echoing the queried
coordinates. -/
theorem get_neighbour_value_characterisation (arr : Grid) (NODATA : ℚ) (i j : ℤ) :
    ((get_neighbour_value (i, j) arr NODATA).2.2 = none ↔
      i < 0 ∨ (arr.dim0 : ℤ) ≤ i ∨ j < 0 ∨ (arr.dim1 : ℤ) ≤ j ∨ arr.val i j ≤ NODATA)
    ∧ (∀ v, (get_neighbour_value (i, j) arr NODATA).2.2 = some v →
        v = arr.val i j ∧ NODATA < v
          ∧ 0 ≤ i ∧ i < (arr.dim0 : ℤ) ∧ 0 ≤ j ∧ j < (arr.dim1 : ℤ))
    ∧ (get_neighbour_value (i, j) arr NODATA).1 = i
    ∧ (get_neighbour_value (i, j) arr NODATA).2.1 = j := by
  by_cases hb : i < 0 ∨ (arr.dim0 : ℤ) ≤ i ∨ j < 0 ∨ (arr.dim1 : ℤ) ≤ j
  · simp [get_neighbour_value, hb]
    tauto
  · by_cases hv : arr.val i j ≤ NODATA
    · simp [get_neighbour_value, hb, hv]
    · push_neg at hb hv
      simp only [get_neighbour_value]
      rw [if_neg (by push_neg; exact hb), if_neg (by push_neg; exact hv)]
      refine ⟨by simp; exact ⟨hb.1, hb.2.1, hb.2.2.1, hb.2.2.2, hv⟩, ?_, rfl, rfl⟩
      intro v hvv
      simp only [Option.some.injEq] at hvv
      exact ⟨hvv.symm, hvv ▸ hv, hb.1, hb.2.1, hb.2.2.1, hb.2.2.2⟩

/-- C1, witness: the amended characterisation evaluated on the 1×1 grid
holding 5 with sentinel 0. -/
theorem get_neighbour_value_characterisation_witness :
    (5 : ℚ) = (Grid.mk 1 1 fun _ _ => 5).val 0 0 ∧ (0 : ℚ) < 5
      ∧ (0 : ℤ) ≤ 0 ∧ (0 : ℤ) < ((Grid.mk 1 1 fun _ _ => 5).dim0 : ℤ)
      ∧ (0 : ℤ) ≤ 0 ∧ (0 : ℤ) < ((Grid.mk 1 1 fun _ _ => 5).dim1 : ℤ) :=
  (get_neighbour_value_characterisation ⟨1, 1, fun _ _ => 5⟩ 0 0 0).2.1 5 (by decide)

/- ---------------------------------------------------------------------
C6.  Error behaviour of the mesh primitives.
--------------------------------------------------------------------- -/

/-- Surfaces append exactly two faces. -/
theorem Mesh.add_surface_faces (m : Mesh) (p1 p2 p3 : Point) (bottom : ℚ) :
    ∃ f1 f2, (m.add_surface p1 p2 p3 bottom).faces = m.faces ++ [f1, f2] := by
  unfold Mesh.add_surface
  rw [Mesh.add_triangle_faces, Mesh.add_triangle_faces, List.append_assoc]
  exact ⟨_, _, rfl⟩

/-- On a non-collinear triangle the fallible call succeeds and computes
exactly the total success projection. -/
theorem add_triangle?_some (m : Mesh) (p1 p2 p3 : Point)
    (h : triangleNormal? p1 p2 p3 ≠ none) :
    m.add_triangle? p1 p2 p3 = some (m.add_triangle p1 p2 p3) := by
  cases hn : triangleNormal? p1 p2 p3 with
  | none => exact absurd hn h
  | some n =>
    unfold Mesh.add_triangle? Mesh.add_triangle triangleNormal
    rw [hn]
    rfl

/-- Quads succeed when both their triangles are non-collinear. -/
theorem add_quad?_some (m : Mesh) (p1 p2 p3 p4 : Point)
    (h1 : triangleNormal? p1 p2 p4 ≠ none)
    (h2 : triangleNormal? p2 p3 p4 ≠ none) :
    m.add_quad? p1 p2 p3 p4 = some (m.add_quad p1 p2 p3 p4) := by
  unfold Mesh.add_quad? Mesh.add_quad
  rw [add_triangle?_some m p1 p2 p4 h1, Option.some_bind]
  exact add_triangle?_some _ p2 p3 p4 h2

/-- Surfaces succeed when the top triangle and its mirrored base are
non-collinear. -/
theorem add_surface?_some (m : Mesh) (p1 p2 p3 : Point) (bottom : ℚ)
    (h1 : triangleNormal? (p1.1, p1.2.1, p1.2.2) (p2.1, p2.2.1, p2.2.2)
      (p3.1, p3.2.1, p3.2.2) ≠ none)
    (h2 : triangleNormal? (p1.1, p1.2.1, bottom) (p3.1, p3.2.1, bottom)
      (p2.1, p2.2.1, bottom) ≠ none) :
    m.add_surface? p1 p2 p3 bottom = some (m.add_surface p1 p2 p3 bottom) := by
  unfold Mesh.add_surface? Mesh.add_surface
  rw [add_triangle?_some m _ _ _ h1, Option.some_bind]
  exact add_triangle?_some _ _ _ _ h2

/-- Walls succeed when the quad's two triangles are non-collinear. -/
theorem add_edge?_some (m : Mesh) (p1 p2 : Point) (bottom : ℚ)
    (h1 : triangleNormal? (p1.1, p1.2.1, p1.2.2) (p2.1, p2.2.1, p2.2.2)
      (p1.1, p1.2.1, bottom) ≠ none)
    (h2 : triangleNormal? (p2.1, p2.2.1, p2.2.2) (p2.1, p2.2.1, bottom)
      (p1.1, p1.2.1, bottom) ≠ none) :
    m.add_edge? p1 p2 bottom = some (m.add_edge p1 p2 bottom) := by
  unfold Mesh.add_edge? Mesh.add_edge
  exact add_quad?_some m _ _ _ _ h1 h2

/-- C6, counterexample: the primitives are not total over well-formed
3-coordinate inputs — on the collinear triple (0,0,0), (1,0,0), (2,0,0)
the cross product is zero, so the source divides by `0.0` and raises
`ZeroDivisionError` instead of appending a face. -/
theorem add_triangle_zero_division :
    Mesh.add_triangle? Mesh.empty (0, 0, 0) (1, 0, 0) (2, 0, 0) = none
    ∧ triangleCross (0, 0, 0) (1, 0, 0) (2, 0, 0) = (0, 0, 0) := by
  have hc : triangleCross (0, 0, 0) (1, 0, 0) (2, 0, 0) = (0, 0, 0) := by
    norm_num [triangleCross]
  have hn : triangleNormal? (0, 0, 0) (1, 0, 0) (2, 0, 0) = none := by
    rw [triangleNormal?]
    rw [hc]
    norm_num
  refine ⟨?_, hc⟩
  unfold Mesh.add_triangle?
  rw [hn]

/-- C6, amended: each mesh primitive succeeds — returning a mesh that
appends exactly its faces (one for `add_triangle`, two for `add_quad`,
`add_surface` and `add_edge`) — whenever every triangle it creates has a
nonzero cross product; on collinear triangles the normal computation
divides by zero and the call fails instead. -/
theorem mesh_primitives_error_free (m : Mesh) (p1 p2 p3 p4 : Point) (bottom : ℚ) :
    (triangleNormal? p1 p2 p3 ≠ none →
      ∃ m' f, m.add_triangle? p1 p2 p3 = some m' ∧ m'.faces = m.faces ++ [f])
    ∧ (triangleNormal? p1 p2 p4 ≠ none → triangleNormal? p2 p3 p4 ≠ none →
      ∃ m' f1 f2, m.add_quad? p1 p2 p3 p4 = some m'
        ∧ m'.faces = m.faces ++ [f1, f2])
    ∧ (triangleNormal? (p1.1, p1.2.1, p1.2.2) (p2.1, p2.2.1, p2.2.2)
          (p3.1, p3.2.1, p3.2.2) ≠ none →
        triangleNormal? (p1.1, p1.2.1, bottom) (p3.1, p3.2.1, bottom)
          (p2.1, p2.2.1, bottom) ≠ none →
      ∃ m' f1 f2, m.add_surface? p1 p2 p3 bottom = some m'
        ∧ m'.faces = m.faces ++ [f1, f2])
    ∧ (triangleNormal? (p1.1, p1.2.1, p1.2.2) (p2.1, p2.2.1, p2.2.2)
          (p1.1, p1.2.1, bottom) ≠ none →
        triangleNormal? (p2.1, p2.2.1, p2.2.2) (p2.1, p2.2.1, bottom)
          (p1.1, p1.2.1, bottom) ≠ none →
      ∃ m' f1 f2, m.add_edge? p1 p2 bottom = some m'
        ∧ m'.faces = m.faces ++ [f1, f2]) := by
  refine ⟨?_, ?_, ?_, ?_⟩
  · intro h
    exact ⟨m.add_triangle p1 p2 p3, _, add_triangle?_some m p1 p2 p3 h,
      Mesh.add_triangle_faces m p1 p2 p3⟩
  · intro h1 h2
    obtain ⟨f1, f2, hf⟩ := Mesh.add_quad_faces m p1 p2 p3 p4
    exact ⟨m.add_quad p1 p2 p3 p4, f1, f2, add_quad?_some m p1 p2 p3 p4 h1 h2, hf⟩
  · intro h1 h2
    obtain ⟨f1, f2, hf⟩ := Mesh.add_surface_faces m p1 p2 p3 bottom
    exact ⟨m.add_surface p1 p2 p3 bottom, f1, f2,
      add_surface?_some m p1 p2 p3 bottom h1 h2, hf⟩
  · intro h1 h2
    obtain ⟨f1, f2, hf⟩ := Mesh.add_quad_faces m
      (p1.1, p1.2.1, p1.2.2) (p2.1, p2.2.1, p2.2.2)
      (p2.1, p2.2.1, bottom) (p1.1, p1.2.1, bottom)
    exact ⟨m.add_edge p1 p2 bottom, f1, f2,
      add_edge?_some m p1 p2 bottom h1 h2, hf⟩

/-- C6, witness: all four primitives succeed and append their faces on
the unit square's corners with base −1. -/
theorem mesh_primitives_error_free_witness :
    (∃ m' f, Mesh.add_triangle? Mesh.empty (0, 0, 0) (1, 0, 0) (1, 1, 0) = some m'
      ∧ m'.faces = Mesh.empty.faces ++ [f])
    ∧ (∃ m' f1 f2,
        Mesh.add_quad? Mesh.empty (0, 0, 0) (1, 0, 0) (1, 1, 0) (0, 1, 0) = some m'
        ∧ m'.faces = Mesh.empty.faces ++ [f1, f2])
    ∧ (∃ m' f1 f2,
        Mesh.add_surface? Mesh.empty (0, 0, 0) (1, 0, 0) (1, 1, 0) (-1) = some m'
        ∧ m'.faces = Mesh.empty.faces ++ [f1, f2])
    ∧ (∃ m' f1 f2, Mesh.add_edge? Mesh.empty (0, 0, 0) (1, 0, 0) (-1) = some m'
        ∧ m'.faces = Mesh.empty.faces ++ [f1, f2]) := by
  obtain ⟨H1, H2, H3, H4⟩ :=
    mesh_primitives_error_free Mesh.empty (0, 0, 0) (1, 0, 0) (1, 1, 0) (0, 1, 0) (-1)
  exact ⟨H1 (by simp [triangleNormal?, triangleCross]),
    H2 (by simp [triangleNormal?, triangleCross]) (by simp [triangleNormal?, triangleCross]),
    H3 (by simp [triangleNormal?, triangleCross]) (by simp [triangleNormal?, triangleCross]),
    H4 (by simp [triangleNormal?, triangleCross]) (by simp [triangleNormal?, triangleCross])⟩

/- ---------------------------------------------------------------------
The simplification pass (`Mesh.simplify`).
--------------------------------------------------------------------- -/

/-- `vertex_face_normals`: per-vertex list of incident face normals, in
the source's append order (faces in order; within a face the v1, v2, v3
slots in order). -/
def Mesh.vertexFaceNormals (m : Mesh) (v : ℕ) : List NVec :=
  m.faces.flatMap fun f =>
    (if f.2.1 = v then [f.1] else []) ++ (if f.2.2.1 = v then [f.1] else [])
      ++ (if f.2.2.2 = v then [f.1] else [])

/-- `vertex_neighbours`: per-vertex list of co-face neighbours, with the
source's duplicates and order. -/
def Mesh.vertexNeighbours (m : Mesh) (v : ℕ) : List ℕ :=
  m.faces.flatMap fun f =>
    (if f.2.1 = v then [f.2.2.1, f.2.2.2] else [])
      ++ (if f.2.2.1 = v then [f.2.1, f.2.2.2] else [])
      ++ (if f.2.2.2 = v then [f.2.1, f.2.2.1] else [])

/-- `flat_vertices`: `some normals[0]` when the vertex occurs in at least
one face and all its incident normals are equal, else `none` (not a key). -/
def Mesh.flatNormal (m : Mesh) (v : ℕ) : Option NVec :=
  match m.vertexFaceNormals v with
  | [] => none
  | n :: rest => if rest.all (fun x => decide (x = n)) then some n else none

/-- One step of the merge-selection loop: vertex `index` examined against
the state `(tainted, merged)`, exactly in the source's skip order. -/
def mergeStep (m : Mesh) (st : List ℕ × List (ℕ × ℕ)) (index : ℕ) :
    List ℕ × List (ℕ × ℕ) :=
  match m.flatNormal index with
  | none => st
  | some ni =>
    if index ∈ st.1 then st
    else if (m.vertexNeighbours index).all (fun nb => (m.flatNormal nb).isSome) then
      match (m.vertexNeighbours index).find?
          (fun nb => decide (m.flatNormal nb = some ni)) with
      | some nb =>
          (st.1 ++ m.vertexNeighbours index ++ m.vertexNeighbours nb,
           st.2 ++ [(index, nb)])
      | none => st
    else st

/-- `merged_vertices` after the whole selection loop (as the insertion-order
list of (vertex, merged_to) pairs; the dict's keys are the pair firsts). -/
def Mesh.mergedPairs (m : Mesh) : List (ℕ × ℕ) :=
  ((List.range m.vertices.length).foldl (mergeStep m) ([], [])).2

/-- First rewrite loop: walk the vertex table in order, assign each
unmerged vertex the next dense index and copy it to the new table.
(`enumerate(self.vertices)` pairs each position with its key; position `i`
holds `verts.getD i _`, the default never being reached since `i` ranges
over the table length.) -/
def survivorStep (verts : List Point) (keys : List ℕ)
    (st : (ℕ → Option ℕ) × List Point) (i : ℕ) : (ℕ → Option ℕ) × List Point :=
  if i ∈ keys then st
  else ((fun x => if x = i then some st.2.length else st.1 x),
        st.2 ++ [verts.getD i (0, 0, 0)])

def survivorFold (verts : List Point) (keys : List ℕ) :
    (ℕ → Option ℕ) × List Point :=
  (List.range verts.length).foldl (survivorStep verts keys) ((fun _ => none), [])

/-- One assignment of the second rewrite loop: route the merged vertex
`p.1` to its target's current entry. -/
def remapExtend (f : ℕ → Option ℕ) (p : ℕ × ℕ) : ℕ → Option ℕ :=
  fun x => if x = p.1 then f p.2 else f x

/-- Second rewrite loop: each merged vertex routed through its target's
entry; a missing entry (Python `KeyError`) is `none`. -/
def Mesh.vertexMap (m : Mesh) : ℕ → Option ℕ :=
  m.mergedPairs.foldl remapExtend
    (survivorFold m.vertices (m.mergedPairs.map Prod.fst)).1

/-- The rebuilt vertex table. -/
def Mesh.newVertices (m : Mesh) : List Point :=
  (survivorFold m.vertices (m.mergedPairs.map Prod.fst)).2

/-- Final rewrite loop over the faces: remap the three indices, dropping a
face whenever two remapped indices collide. -/
def Mesh.newFaces (m : Mesh) : List Face :=
  m.faces.filterMap fun f =>
    match m.vertexMap f.2.1, m.vertexMap f.2.2.1, m.vertexMap f.2.2.2 with
    | some a, some b, some c =>
        if a = b ∨ b = c ∨ c = a then none else some (f.1, a, b, c)
    | _, _, _ => none

/-- `Mesh.simplify`: one pass, returning the rewritten mesh and the number
of merged vertices (the source mutates `self` in place and returns the
count). -/
def Mesh.simplify (m : Mesh) : Mesh × ℕ :=
  (⟨m.newVertices, m.newFaces⟩, m.mergedPairs.length)

/- ---------------------------------------------------------------------
C4.  A simplify pass never keeps a degenerate face.
--------------------------------------------------------------------- -/

/-- C4: after a single simplify pass on any mesh, every face in the
resulting face list has pairwise distinct vertex indices — any face whose
indices collide after the remap is dropped, not kept. -/
theorem simplify_no_degenerate (m : Mesh) (f : Face)
    (hf : f ∈ (Mesh.simplify m).1.faces) :
    f.2.1 ≠ f.2.2.1 ∧ f.2.2.1 ≠ f.2.2.2 ∧ f.2.2.2 ≠ f.2.1 := by
  simp only [Mesh.simplify, Mesh.newFaces, List.mem_filterMap] at hf
  obtain ⟨a, -, hg⟩ := hf
  split at hg
  case _ x y z _ _ _ =>
    split at hg
    · exact absurd hg (by simp)
    case _ hne =>
      push_neg at hne
      obtain ⟨h1, h2, h3⟩ := hne
      obtain rfl : (a.1, x, y, z) = f := by simpa using hg
      exact ⟨h1, h2, h3⟩
  case _ =>
    exact absurd hg (by simp)

/-- The flat 2×2 quad mesh (two coplanar triangles): simplify merges one
vertex and keeps one non-degenerate face. -/
def flatQuadMesh : Mesh :=
  ⟨[(0,0,0), (1,0,0), (1,1,0), (0,1,0)],
   [((0,0,1), 0, 1, 3), ((0,0,1), 1, 2, 3)]⟩

/-- C4, witness: the face surviving the pass on `flatQuadMesh` has
pairwise distinct indices. -/
theorem simplify_no_degenerate_witness :
    ((0,0,1), 0, 1, 2) ∈ (Mesh.simplify flatQuadMesh).1.faces
    ∧ ((((0,0,1), 0, 1, 2) : Face).2.1 ≠ (((0,0,1), 0, 1, 2) : Face).2.2.1
        ∧ (((0,0,1), 0, 1, 2) : Face).2.2.1 ≠ (((0,0,1), 0, 1, 2) : Face).2.2.2
        ∧ (((0,0,1), 0, 1, 2) : Face).2.2.2 ≠ (((0,0,1), 0, 1, 2) : Face).2.1) :=
  ⟨by decide, simplify_no_degenerate flatQuadMesh _ (by decide)⟩

/- ---------------------------------------------------------------------
Structure of the merge-selection loop.
--------------------------------------------------------------------- -/

/-- Either a step of the selection loop leaves the state alone, or it
schedules exactly one merge `(index, nb)` of an untainted flat vertex
into a flat same-normal neighbour and taints both neighbourhoods. -/
theorem mergeStep_cases (m : Mesh) (st : List ℕ × List (ℕ × ℕ)) (i : ℕ) :
    mergeStep m st i = st
    ∨ ∃ nb, nb ∈ m.vertexNeighbours i
        ∧ m.flatNormal nb = m.flatNormal i
        ∧ (m.flatNormal i).isSome
        ∧ i ∉ st.1
        ∧ (∀ x ∈ m.vertexNeighbours i, (m.flatNormal x).isSome)
        ∧ mergeStep m st i
            = (st.1 ++ m.vertexNeighbours i ++ m.vertexNeighbours nb,
               st.2 ++ [(i, nb)]) := by
  unfold mergeStep
  cases hfi : m.flatNormal i with
  | none => exact Or.inl rfl
  | some ni =>
    by_cases hmem : i ∈ st.1
    · simp [hmem]
    · by_cases hall : (m.vertexNeighbours i).all (fun nb => (m.flatNormal nb).isSome)
      · cases hfind : (m.vertexNeighbours i).find?
            (fun nb => decide (m.flatNormal nb = some ni)) with
        | none => simp [hmem, hall, hfind]
        | some nb =>
          right
          refine ⟨nb, List.mem_of_find?_eq_some hfind, ?_, by simp [hfi], hmem, ?_, ?_⟩
          · have hthis := List.find?_some hfind
            simp at hthis
            exact hthis
          · intro x hx
            exact (List.all_eq_true.mp hall x hx)
          · simp [hmem, hall, hfind]
      · simp [hmem, hall]

/-- Scheduled merges have distinct merging vertices, all drawn from the
index range that the loop walks. -/
theorem mergeFold_keys (m : Mesh) :
    ∀ (l : List ℕ) (st : List ℕ × List (ℕ × ℕ)), l.Nodup →
      (∀ p ∈ st.2, p.1 ∉ l) → (st.2.map Prod.fst).Nodup →
      ((l.foldl (mergeStep m) st).2.map Prod.fst).Nodup
        ∧ ∀ p ∈ (l.foldl (mergeStep m) st).2, p ∈ st.2 ∨ p.1 ∈ l := by
  intro l
  induction l with
  | nil => intro st _ _ h; simpa using h
  | cons a l ih =>
    intro st hnd hnotin hkeys
    have hnd' : l.Nodup := hnd.of_cons
    have hana : a ∉ l := by simp [List.nodup_cons] at hnd; exact hnd.1
    rcases mergeStep_cases m st a with hid | ⟨nb, -, -, -, -, -, heq⟩
    · rw [List.foldl_cons, hid]
      have h1 : ∀ p ∈ st.2, p.1 ∉ l := fun p hp => fun hl =>
        hnotin p hp (List.mem_cons_of_mem a hl)
      obtain ⟨hk, hm⟩ := ih st hnd' h1 hkeys
      exact ⟨hk, fun p hp => (hm p hp).imp_right (List.mem_cons_of_mem a)⟩
    · rw [List.foldl_cons, heq]
      set st' : List ℕ × List (ℕ × ℕ) :=
        (st.1 ++ m.vertexNeighbours a ++ m.vertexNeighbours nb, st.2 ++ [(a, nb)]) with hst'
      have h1 : ∀ p ∈ st'.2, p.1 ∉ l := by
        intro p hp
        rcases List.mem_append.mp hp with h | h
        · exact fun hl => hnotin p h (List.mem_cons_of_mem a hl)
        · simp at h
          rw [h]
          exact hana
      have h2 : (st'.2.map Prod.fst).Nodup := by
        have : st'.2.map Prod.fst = st.2.map Prod.fst ++ [a] := by simp [hst']
        rw [this]
        simp only [List.nodup_append, List.nodup_cons]
        refine ⟨hkeys, by simp, ?_⟩
        intro x hx
        simp only [List.mem_singleton]
        intro hxa
        obtain ⟨p, hp, hpa⟩ := List.mem_map.mp hx
        rw [hxa] at hpa
        exact hnotin p hp (hpa ▸ List.mem_cons_self a l)
      obtain ⟨hk, hm⟩ := ih st' hnd' h1 h2
      refine ⟨hk, fun p hp => ?_⟩
      rcases hm p hp with h | h
      · rcases List.mem_append.mp h with h | h
        · exact Or.inl h
        · simp at h
          exact Or.inr (by rw [h]; exact List.mem_cons_self a l)
      · exact Or.inr (List.mem_cons_of_mem a h)

/- ---------------------------------------------------------------------
Structure of the rewrite phase.
--------------------------------------------------------------------- -/

/-- The first rewrite loop copies exactly the vertices at positions
outside the merged-key set, in order. -/
theorem survivor_foldl_snd (verts : List Point) (keys : List ℕ) (l : List ℕ) :
    ∀ st, (l.foldl (survivorStep verts keys) st).2
      = st.2 ++ (l.filter (fun i => decide (i ∉ keys))).map
          (fun i => verts.getD i (0, 0, 0)) := by
  induction l with
  | nil => intro st; simp
  | cons a l ih =>
    intro st
    rw [List.foldl_cons]
    by_cases ha : a ∈ keys
    · rw [ih]
      simp [survivorStep, ha]
    · rw [ih]
      simp [survivorStep, ha]

/-- Positions kept by a filter that rejects at least one member are
strictly fewer than all positions. -/
theorem filter_length_lt {α : Type} (q : α → Bool) (l : List α) (x : α)
    (hx : x ∈ l) (hqx : q x = false) : (l.filter q).length < l.length := by
  induction l with
  | nil => cases hx
  | cons a l ih =>
    rcases List.mem_cons.mp hx with rfl | hx'
    · rw [List.filter_cons, hqx]
      simp only [List.length_cons]
      exact Nat.lt_succ_of_le (List.length_filter_le q l)
    · rw [List.filter_cons]
      rcases h : q a with _ | _
      · simp only [List.length_cons]
        exact Nat.lt_succ_of_lt (ih hx')
      · simp only [List.length_cons]
        exact Nat.succ_lt_succ (ih hx')

/-- Helper: the number of merged vertices bounds the vertex table from
below — the rebuilt table is strictly shorter whenever a merge happened. -/
theorem simplify_vertices_lt (m : Mesh) (h : 0 < (Mesh.simplify m).2) :
    (Mesh.simplify m).1.vertices.length < m.vertices.length := by
  have hpairs : m.mergedPairs ≠ [] := by
    intro hnil
    simp [Mesh.simplify, hnil] at h
  obtain ⟨p, hp⟩ := List.exists_mem_of_ne_nil _ hpairs
  have hkeys := mergeFold_keys m (List.range m.vertices.length) ([], [])
    (List.nodup_range _) (by simp) (by simp)
  have hp1 : p.1 ∈ List.range m.vertices.length := by
    rcases hkeys.2 p hp with h' | h'
    · cases h'
    · exact h'
  have hnew : (Mesh.simplify m).1.vertices
      = (List.filter (fun i => decide (i ∉ m.mergedPairs.map Prod.fst))
          (List.range m.vertices.length)).map (fun i => m.vertices.getD i (0, 0, 0)) := by
    simp only [Mesh.simplify, Mesh.newVertices, survivorFold]
    rw [survivor_foldl_snd]
    simp
  rw [hnew, List.length_map]
  refine lt_of_lt_of_eq (filter_length_lt _ _ p.1 hp1 ?_) (List.length_range _)
  simp only [decide_eq_false_iff_not, Decidable.not_not]
  exact List.mem_map.mpr ⟨p, hp, rfl⟩

/- ---------------------------------------------------------------------
C10.  Each productive pass shrinks the vertex table.
--------------------------------------------------------------------- -/

/-- C10: a simplify pass that reports a positive merge count strictly
decreases the number of vertices in the table, so the caller's
repeat-until-zero loop can only run finitely many productive passes. -/
theorem simplify_pass_decreases (m : Mesh) (h : 0 < (Mesh.simplify m).2) :
    (Mesh.simplify m).1.vertices.length < m.vertices.length :=
  simplify_vertices_lt m h

/-- C10, witness: the pass on `flatQuadMesh` merges one vertex and shrinks
the table from 4 to 3 entries. -/
theorem simplify_pass_decreases_witness :
    0 < (Mesh.simplify flatQuadMesh).2
    ∧ (Mesh.simplify flatQuadMesh).1.vertices.length < flatQuadMesh.vertices.length :=
  ⟨by decide, simplify_pass_decreases flatQuadMesh (by decide)⟩

/-- The caller's simplify-until-fixpoint loop, total by the decrease
property: repeat passes, accumulating the merge count, until a pass
returns zero. -/
def simplifyAll (m : Mesh) : Mesh × ℕ :=
  let r := Mesh.simplify m
  if h : r.2 = 0 then (r.1, 0)
  else
    have : r.1.vertices.length < m.vertices.length :=
      simplify_vertices_lt m (Nat.pos_of_ne_zero h)
    let r' := simplifyAll r.1
    (r'.1, r.2 + r'.2)
termination_by m.vertices.length

/- ---------------------------------------------------------------------
C3.  A pass with no possible merge.
--------------------------------------------------------------------- -/

/-- If no vertex in table range is flat with all-flat neighbours and a
same-normal neighbour, the selection loop schedules nothing. -/
theorem mergedPairs_nil (m : Mesh)
    (H : ∀ i < m.vertices.length, (m.flatNormal i).isSome →
      (∀ nb ∈ m.vertexNeighbours i, (m.flatNormal nb).isSome) →
      ∀ nb ∈ m.vertexNeighbours i, m.flatNormal nb ≠ m.flatNormal i) :
    m.mergedPairs = [] := by
  have key : ∀ l : List ℕ, (∀ i ∈ l, i < m.vertices.length) →
      l.foldl (mergeStep m) ([], []) = ([], []) := by
    intro l
    induction l with
    | nil => intro _; rfl
    | cons a l ih =>
      intro hl
      rw [List.foldl_cons]
      have hstep : mergeStep m ([], []) a = ([], []) := by
        rcases mergeStep_cases m ([], []) a with h | ⟨nb, hnb, hfeq, hfs, -, hall, -⟩
        · exact h
        · exact absurd hfeq (H a (hl a (List.mem_cons_self a l)) hfs hall nb hnb)
      rw [hstep]
      exact ih fun i hi => hl i (List.mem_cons_of_mem a hi)
  have := key (List.range m.vertices.length) fun i hi => List.mem_range.mp hi
  simp [Mesh.mergedPairs, this]

/-- `getD` over the position range reproduces the list. -/
theorem map_getD_range (verts : List Point) :
    (List.range verts.length).map (fun i => verts.getD i (0, 0, 0)) = verts := by
  induction verts with
  | nil => simp
  | cons a l ih =>
    rw [List.length_cons, List.range_succ_eq_map, List.map_cons, List.map_map]
    congr 1

/-- With no merged keys, the first rewrite loop is the identity ranking on
the table positions and copies the table verbatim. -/
theorem survivorFold_nil (verts : List Point) :
    survivorFold verts []
      = ((fun x => if x < verts.length then some x else none), verts) := by
  have key : ∀ n, (List.range n).foldl (survivorStep verts []) ((fun _ => none), [])
      = ((fun x => if x < n then some x else none),
         (List.range n).map (fun i => verts.getD i (0, 0, 0))) := by
    intro n
    induction n with
    | zero => simp
    | succ k ih =>
      rw [List.range_succ, List.foldl_append, ih]
      simp only [List.foldl_cons, List.foldl_nil, survivorStep]
      rw [if_neg (by simp)]
      rw [Prod.ext_iff]
      constructor
      · funext x
        by_cases hx : x = k
        · simp [hx]
        · by_cases hlt : x < k
          · simp [hx, hlt, Nat.lt_succ_of_lt hlt]
          · have hnlt : ¬ x < k + 1 := by omega
            simp [hx, hlt, hnlt]
      · simp
  rw [survivorFold, key, map_getD_range]

/-- A `filterMap` whose function fixes every member is the identity. -/
theorem filterMap_eq_self {α : Type} (g : α → Option α) (l : List α)
    (h : ∀ a ∈ l, g a = some a) : l.filterMap g = l := by
  induction l with
  | nil => simp
  | cons a l ih =>
    rw [List.filterMap_cons, h a (List.mem_cons_self a l)]
    rw [ih fun b hb => h b (List.mem_cons_of_mem a hb)]

/-- C3, amended: on a mesh whose faces reference valid table positions and
are non-degenerate, and in which no merge is possible (no flat vertex with
only flat neighbours has a same-normal neighbour; tainting is vacuous when
nothing merges), a simplify pass returns count 0 and leaves both the
vertex table and the face list unchanged. -/
theorem simplify_fixpoint_of_no_merge (m : Mesh)
    (hvalid : ∀ f ∈ m.faces, f.2.1 < m.vertices.length
      ∧ f.2.2.1 < m.vertices.length ∧ f.2.2.2 < m.vertices.length)
    (hnodeg : ∀ f ∈ m.faces, f.2.1 ≠ f.2.2.1 ∧ f.2.2.1 ≠ f.2.2.2 ∧ f.2.2.2 ≠ f.2.1)
    (hnomerge : ∀ i < m.vertices.length, (m.flatNormal i).isSome →
      (∀ nb ∈ m.vertexNeighbours i, (m.flatNormal nb).isSome) →
      ∀ nb ∈ m.vertexNeighbours i, m.flatNormal nb ≠ m.flatNormal i) :
    Mesh.simplify m = (m, 0) := by
  have hnil := mergedPairs_nil m hnomerge
  have hvm : m.vertexMap = fun x => if x < m.vertices.length then some x else none := by
    rw [Mesh.vertexMap, hnil]
    simp [survivorFold_nil]
  have hnv : m.newVertices = m.vertices := by
    rw [Mesh.newVertices, hnil]
    simp [survivorFold_nil]
  have hnf : m.newFaces = m.faces := by
    unfold Mesh.newFaces
    apply filterMap_eq_self
    intro f hf
    obtain ⟨h1, h2, h3⟩ := hvalid f hf
    obtain ⟨d1, d2, d3⟩ := hnodeg f hf
    rw [hvm]
    simp only [if_pos h1, if_pos h2, if_pos h3]
    rw [if_neg (by push_neg; exact ⟨d1, d2, d3⟩)]
  simp [Mesh.simplify, hnv, hnf, hnil]

/-- A mesh with a pre-existing degenerate face whose vertices are not all
flat, so that nothing can merge. -/
def degenFaceMesh : Mesh :=
  ⟨[(0,0,0), (1,0,0), (0,1,0)],
   [((0,0,1), 0, 0, 1), ((0,0,2), 0, 1, 2)]⟩

/-- C3, counterexample to the claim as stated ("for every mesh"): on
`degenFaceMesh` no merge is possible and the pass indeed returns 0, yet
the face list changes — the rewrite loop silently drops the pre-existing
degenerate face. -/
theorem simplify_fixpoint_counterexample :
    (∀ i < degenFaceMesh.vertices.length, (degenFaceMesh.flatNormal i).isSome →
      (∀ nb ∈ degenFaceMesh.vertexNeighbours i, (degenFaceMesh.flatNormal nb).isSome) →
      ∀ nb ∈ degenFaceMesh.vertexNeighbours i,
        degenFaceMesh.flatNormal nb ≠ degenFaceMesh.flatNormal i)
    ∧ (Mesh.simplify degenFaceMesh).2 = 0
    ∧ (Mesh.simplify degenFaceMesh).1.faces ≠ degenFaceMesh.faces := by
  refine ⟨?_, by decide, by decide⟩
  intro i hi
  rw [show degenFaceMesh.vertices.length = 3 from by decide] at hi
  interval_cases i <;> decide

/-- A valid, non-degenerate, unmergeable mesh: two triangles sharing an
edge with different normals. -/
def bentPairMesh : Mesh :=
  ⟨[(0,0,0), (1,0,0), (1,1,0), (0,1,0)],
   [((0,0,1), 0, 1, 2), ((0,0,2), 0, 2, 3)]⟩

/-- C3, witness: the amended fixpoint theorem applied to `bentPairMesh`. -/
theorem simplify_fixpoint_witness :
    Mesh.simplify bentPairMesh = (bentPairMesh, 0) :=
  simplify_fixpoint_of_no_merge bentPairMesh (by decide) (by decide)
    (by
      intro i hi
      rw [show bentPairMesh.vertices.length = 4 from by decide] at hi
      interval_cases i <;> decide)

/- ---------------------------------------------------------------------
C9.  Merge targets are never themselves merged.
--------------------------------------------------------------------- -/

/-- Membership in a conditional singleton block. -/
theorem mem_ite_nil {α : Type} (a : α) (c : Prop) [Decidable c] (l : List α) :
    a ∈ (if c then l else []) ↔ c ∧ a ∈ l := by
  split_ifs with h <;> simp [h]

/-- Characterisation of the neighbour lists: `a` neighbours `b` exactly
when some face holds `b` in one slot and `a` in another of its two
companion slots. -/
theorem mem_vertexNeighbours_iff (m : Mesh) (a b : ℕ) :
    a ∈ m.vertexNeighbours b ↔ ∃ f ∈ m.faces,
      (f.2.1 = b ∧ (a = f.2.2.1 ∨ a = f.2.2.2))
      ∨ (f.2.2.1 = b ∧ (a = f.2.1 ∨ a = f.2.2.2))
      ∨ (f.2.2.2 = b ∧ (a = f.2.1 ∨ a = f.2.2.1)) := by
  simp only [Mesh.vertexNeighbours, List.mem_flatMap, List.mem_append, mem_ite_nil,
    List.mem_cons, List.not_mem_nil, or_false]
  constructor
  · rintro ⟨f, hf, h⟩
    exact ⟨f, hf, by tauto⟩
  · rintro ⟨f, hf, h⟩
    exact ⟨f, hf, by tauto⟩

/-- The neighbour relation is symmetric. -/
theorem vertexNeighbours_symm (m : Mesh) (a b : ℕ)
    (h : a ∈ m.vertexNeighbours b) : b ∈ m.vertexNeighbours a := by
  rw [mem_vertexNeighbours_iff] at h ⊢
  obtain ⟨f, hf, hc⟩ := h
  refine ⟨f, hf, ?_⟩
  rcases hc with ⟨h1, h2 | h2⟩ | ⟨h1, h2 | h2⟩ | ⟨h1, h2 | h2⟩ <;> subst h2 <;> tauto

/-- Without degenerate faces, no vertex neighbours itself. -/
theorem not_self_neighbour (m : Mesh)
    (hnodeg : ∀ f ∈ m.faces, f.2.1 ≠ f.2.2.1 ∧ f.2.2.1 ≠ f.2.2.2 ∧ f.2.2.2 ≠ f.2.1)
    (a : ℕ) : a ∉ m.vertexNeighbours a := by
  rw [mem_vertexNeighbours_iff]
  rintro ⟨f, hf, hc⟩
  obtain ⟨d1, d2, d3⟩ := hnodeg f hf
  rcases hc with ⟨h1, h2 | h2⟩ | ⟨h1, h2 | h2⟩ | ⟨h1, h2 | h2⟩ <;> omega

/-- With valid face indices, every neighbour is a table position. -/
theorem neighbour_lt (m : Mesh)
    (hvalid : ∀ f ∈ m.faces, f.2.1 < m.vertices.length
      ∧ f.2.2.1 < m.vertices.length ∧ f.2.2.2 < m.vertices.length)
    (a b : ℕ) (h : a ∈ m.vertexNeighbours b) : a < m.vertices.length := by
  rw [mem_vertexNeighbours_iff] at h
  obtain ⟨f, hf, hc⟩ := h
  obtain ⟨v1, v2, v3⟩ := hvalid f hf
  rcases hc with ⟨h1, h2 | h2⟩ | ⟨h1, h2 | h2⟩ | ⟨h1, h2 | h2⟩ <;> omega

/-- Invariant of the selection loop: every scheduled pair merges into one
of its neighbours, both neighbourhoods are tainted, and no target is a
merged key. -/
theorem mergeFold_inv (m : Mesh)
    (hsym : ∀ a b, a ∈ m.vertexNeighbours b → b ∈ m.vertexNeighbours a)
    (hnself : ∀ a, a ∉ m.vertexNeighbours a) :
    ∀ (l : List ℕ) (st : List ℕ × List (ℕ × ℕ)),
      (∀ p ∈ st.2, p.2 ∈ m.vertexNeighbours p.1
        ∧ (∀ x ∈ m.vertexNeighbours p.1, x ∈ st.1)
        ∧ (∀ x ∈ m.vertexNeighbours p.2, x ∈ st.1)
        ∧ (∀ q ∈ st.2, p.2 ≠ q.1)) →
      ∀ p ∈ (l.foldl (mergeStep m) st).2, p.2 ∈ m.vertexNeighbours p.1
        ∧ (∀ x ∈ m.vertexNeighbours p.1, x ∈ (l.foldl (mergeStep m) st).1)
        ∧ (∀ x ∈ m.vertexNeighbours p.2, x ∈ (l.foldl (mergeStep m) st).1)
        ∧ (∀ q ∈ (l.foldl (mergeStep m) st).2, p.2 ≠ q.1) := by
  intro l
  induction l with
  | nil => intro st hinv; simpa using hinv
  | cons a l ih =>
    intro st hinv
    rw [List.foldl_cons]
    apply ih
    rcases mergeStep_cases m st a with hid | ⟨nb, hnb, -, -, hmem, -, heq⟩
    · rw [hid]; exact hinv
    · rw [heq]
      intro p hp
      rcases List.mem_append.mp hp with hold | hnew
      · obtain ⟨h1, h2, h3, h4⟩ := hinv p hold
        refine ⟨h1, ?_, ?_, ?_⟩
        · intro x hx
          exact List.mem_append_left _ (List.mem_append_left _ (h2 x hx))
        · intro x hx
          exact List.mem_append_left _ (List.mem_append_left _ (h3 x hx))
        · intro q hq
          rcases List.mem_append.mp hq with hq | hq
          · exact h4 q hq
          · simp only [List.mem_singleton] at hq
            rw [hq]
            intro hpa
            have hpa' : p.2 = a := hpa
            exact hmem (hpa' ▸ h2 p.2 h1)
      · simp only [List.mem_singleton] at hnew
        subst hnew
        refine ⟨hnb, ?_, ?_, ?_⟩
        · intro x hx
          exact List.mem_append_left _ (List.mem_append_right _ hx)
        · intro x hx
          exact List.mem_append_right _ hx
        · intro q hq
          rcases List.mem_append.mp hq with hq | hq
          · obtain ⟨-, q2, -, -⟩ := hinv q hq
            intro hnbq
            exact hmem (q2 a (hnbq ▸ hsym nb a hnb))
          · simp only [List.mem_singleton] at hq
            rw [hq]
            intro hna
            have hna' : nb = a := hna
            exact hnself a (hna' ▸ hnb)

/-- The first rewrite loop holds an entry exactly for the processed
in-range positions outside the merged keys. -/
theorem survivorFold_isSome (verts : List Point) (keys : List ℕ) (x : ℕ) :
    ((survivorFold verts keys).1 x).isSome ↔ (x < verts.length ∧ x ∉ keys) := by
  have key : ∀ (l : List ℕ) (st : (ℕ → Option ℕ) × List Point),
      (((l.foldl (survivorStep verts keys) st).1 x).isSome
        ↔ ((x ∈ l ∧ x ∉ keys) ∨ (st.1 x).isSome)) := by
    intro l
    induction l with
    | nil => intro st; simp
    | cons a l ih =>
      intro st
      rw [List.foldl_cons]
      by_cases ha : a ∈ keys
      · rw [show survivorStep verts keys st a = st from by simp [survivorStep, ha]]
        rw [ih]
        constructor
        · rintro (⟨h1, h2⟩ | h)
          · exact Or.inl ⟨List.mem_cons_of_mem a h1, h2⟩
          · exact Or.inr h
        · rintro (⟨h1, h2⟩ | h)
          · rcases List.mem_cons.mp h1 with rfl | h1
            · exact absurd ha h2
            · exact Or.inl ⟨h1, h2⟩
          · exact Or.inr h
      · rw [show survivorStep verts keys st a
            = ((fun y => if y = a then some st.2.length else st.1 y),
               st.2 ++ [verts.getD a (0, 0, 0)]) from by simp [survivorStep, ha]]
        rw [ih]
        by_cases hxa : x = a
        · subst hxa
          simp [ha]
        · simp only [hxa, if_false]
          constructor
          · rintro (⟨h1, h2⟩ | h)
            · exact Or.inl ⟨List.mem_cons_of_mem a h1, h2⟩
            · exact Or.inr h
          · rintro (⟨h1, h2⟩ | h)
            · rcases List.mem_cons.mp h1 with rfl | h1
              · exact absurd rfl hxa
              · exact Or.inl ⟨h1, h2⟩
            · exact Or.inr h
  have h := key (List.range verts.length) ((fun _ => none), [])
  rw [survivorFold] at *
  rw [h]
  simp [List.mem_range]

/-- Updates of the second rewrite loop never touch positions outside its
keys. -/
theorem remapFold_skip (l : List (ℕ × ℕ)) (f : ℕ → Option ℕ) (x : ℕ)
    (hx : x ∉ l.map Prod.fst) : (l.foldl remapExtend f) x = f x := by
  induction l generalizing f with
  | nil => rfl
  | cons a l ih =>
    simp only [List.map_cons, List.mem_cons, not_or] at hx
    rw [List.foldl_cons, ih _ hx.2]
    simp [remapExtend, hx.1]

/-- When the merged keys are distinct and no target is a key, each merged
vertex ends up mapped to its target's original entry. -/
theorem remapFold_eval (l : List (ℕ × ℕ)) (f : ℕ → Option ℕ)
    (hnd : (l.map Prod.fst).Nodup)
    (htk : ∀ p ∈ l, ∀ q ∈ l, p.2 ≠ q.1) :
    ∀ p ∈ l, (l.foldl remapExtend f) p.1 = f p.2 := by
  induction l generalizing f with
  | nil => intro p hp; cases hp
  | cons a l ih =>
    intro p hp
    rw [List.foldl_cons]
    rcases List.mem_cons.mp hp with rfl | hp'
    · have ha : p.1 ∉ l.map Prod.fst := by
        simp only [List.map_cons, List.nodup_cons] at hnd
        exact hnd.1
      rw [remapFold_skip l _ _ ha]
      simp [remapExtend]
    · have h2 : p.2 ≠ a.1 :=
        htk p (List.mem_cons_of_mem a hp') a (List.mem_cons_self a l)
      have hnd' : (l.map Prod.fst).Nodup := by
        simp only [List.map_cons, List.nodup_cons] at hnd
        exact hnd.2
      have htk' : ∀ p' ∈ l, ∀ q ∈ l, p'.2 ≠ q.1 := fun p' hp'' q hq =>
        htk p' (List.mem_cons_of_mem a hp'') q (List.mem_cons_of_mem a hq)
      rw [ih _ hnd' htk' p hp']
      simp [remapExtend, h2]

/-- C9, amended: on a mesh with valid face indices and no degenerate
faces, no vertex chosen as a merge target is itself merged within the same
pass (tainting the neighbourhoods of both endpoints prevents chains), so
the remap assignment finds the target already mapped (its first-loop entry
exists) and never needs recursive resolution: the merged vertex's final
entry is exactly its target's first-loop entry. -/
theorem merge_target_never_merged (m : Mesh)
    (hvalid : ∀ f ∈ m.faces, f.2.1 < m.vertices.length
      ∧ f.2.2.1 < m.vertices.length ∧ f.2.2.2 < m.vertices.length)
    (hnodeg : ∀ f ∈ m.faces, f.2.1 ≠ f.2.2.1 ∧ f.2.2.1 ≠ f.2.2.2 ∧ f.2.2.2 ≠ f.2.1) :
    ∀ p ∈ m.mergedPairs,
      (∀ q ∈ m.mergedPairs, p.2 ≠ q.1)
      ∧ ((survivorFold m.vertices (m.mergedPairs.map Prod.fst)).1 p.2).isSome
      ∧ m.vertexMap p.1
          = (survivorFold m.vertices (m.mergedPairs.map Prod.fst)).1 p.2 := by
  have hfold : m.mergedPairs
      = ((List.range m.vertices.length).foldl (mergeStep m) ([], [])).2 := rfl
  have hinv := mergeFold_inv m (vertexNeighbours_symm m) (not_self_neighbour m hnodeg)
    (List.range m.vertices.length) ([], []) (by simp)
  intro p hp
  obtain ⟨h1, -, -, h4⟩ := hinv p (hfold ▸ hp)
  have htargets : ∀ q ∈ m.mergedPairs, p.2 ≠ q.1 := fun q hq => h4 q (hfold ▸ hq)
  have hlt : p.2 < m.vertices.length := neighbour_lt m hvalid p.2 p.1 h1
  have hnotkey : p.2 ∉ m.mergedPairs.map Prod.fst := by
    intro hk
    obtain ⟨q, hq, hq2⟩ := List.mem_map.mp hk
    exact htargets q hq hq2.symm
  have hkeysnd : (m.mergedPairs.map Prod.fst).Nodup :=
    (mergeFold_keys m (List.range m.vertices.length) ([], [])
      (List.nodup_range _) (by simp) (by simp)).1
  have htk : ∀ p' ∈ m.mergedPairs, ∀ q ∈ m.mergedPairs, p'.2 ≠ q.1 := by
    intro p' hp' q hq
    obtain ⟨-, -, -, h4'⟩ := hinv p' (hfold ▸ hp')
    exact h4' q (hfold ▸ hq)
  refine ⟨htargets, (survivorFold_isSome _ _ _).mpr ⟨hlt, hnotkey⟩, ?_⟩
  exact remapFold_eval m.mergedPairs _ hkeysnd htk p hp

/-- A mesh whose only face is degenerate: vertex 0 is its own neighbour. -/
def selfLoopMesh : Mesh := ⟨[(0,0,0), (1,0,0)], [((0,0,1), 0, 0, 1)]⟩

/-- C9, counterexample to the claim on arbitrary meshes: on
`selfLoopMesh` the pass schedules the merge (0, 0) — vertex 0 merges into
itself, so the chosen target *is* merged in the same pass — and the remap
lookup for the target finds no entry (Python raises `KeyError`). -/
theorem merge_target_counterexample :
    (0, 0) ∈ selfLoopMesh.mergedPairs
    ∧ 0 ∈ selfLoopMesh.mergedPairs.map Prod.fst
    ∧ selfLoopMesh.vertexMap 0 = none := by decide

/-- C9, witness: on `flatQuadMesh` the single scheduled merge (0, 1) has
its target 1 unmerged and already ranked by the first rewrite loop. -/
theorem merge_target_never_merged_witness :
    (0, 1) ∈ flatQuadMesh.mergedPairs
    ∧ ((∀ q ∈ flatQuadMesh.mergedPairs, ((0:ℕ), (1:ℕ)).2 ≠ q.1)
      ∧ ((survivorFold flatQuadMesh.vertices
          (flatQuadMesh.mergedPairs.map Prod.fst)).1 ((0:ℕ), (1:ℕ)).2).isSome
      ∧ flatQuadMesh.vertexMap ((0:ℕ), (1:ℕ)).1
          = (survivorFold flatQuadMesh.vertices
              (flatQuadMesh.mergedPairs.map Prod.fst)).1 ((0:ℕ), (1:ℕ)).2) :=
  ⟨by decide, merge_target_never_merged flatQuadMesh (by decide) (by decide)
    (0, 1) (by decide)⟩

/- ---------------------------------------------------------------------
C7.  The vertex-table invariants over the mesh lifecycle.
--------------------------------------------------------------------- -/

/-- Meshes reachable by construction: the empty mesh extended by the four
primitives (exactly how the triangulator builds its mesh). -/
inductive Built : Mesh → Prop where
  | empty : Built Mesh.empty
  | tri (m : Mesh) (p1 p2 p3 : Point) : Built m → Built (m.add_triangle p1 p2 p3)
  | quad (m : Mesh) (p1 p2 p3 p4 : Point) : Built m → Built (m.add_quad p1 p2 p3 p4)
  | surface (m : Mesh) (p1 p2 p3 : Point) (bottom : ℚ) :
      Built m → Built (m.add_surface p1 p2 p3 bottom)
  | edge (m : Mesh) (p1 p2 : Point) (bottom : ℚ) :
      Built m → Built (m.add_edge p1 p2 bottom)

/-- The construction invariants: deduplicated table, faces referencing
table positions, every position referenced by a face. -/
def MeshInv (m : Mesh) : Prop :=
  m.vertices.Nodup
  ∧ (∀ f ∈ m.faces, f.2.1 < m.vertices.length
      ∧ f.2.2.1 < m.vertices.length ∧ f.2.2.2 < m.vertices.length)
  ∧ (∀ i < m.vertices.length, ∃ f ∈ m.faces, f.2.1 = i ∨ f.2.2.1 = i ∨ f.2.2.2 = i)

/-- A present point's first occurrence is a valid position. -/
theorem firstIdx_lt_length (p : Point) (l : List Point) (h : p ∈ l) :
    firstIdx p l < l.length := by
  induction l with
  | nil => cases h
  | cons a l ih =>
    by_cases ha : a = p
    · simp [firstIdx, ha]
    · rcases List.mem_cons.mp h with rfl | h'
      · exact absurd rfl ha
      · simp only [firstIdx, ha, if_false, List.length_cons]
        exact Nat.succ_lt_succ (ih h')

/-- A fresh point appended at the end sits at the old length. -/
theorem firstIdx_append (p : Point) (l : List Point) (h : p ∉ l) :
    firstIdx p (l ++ [p]) = l.length := by
  induction l with
  | nil => simp [firstIdx]
  | cons a l ih =>
    have ha : ¬ a = p := fun hap => h (hap ▸ List.mem_cons_self a l)
    simp only [List.cons_append, firstIdx, ha, if_false, List.length_cons]
    rw [show l.append [p] = l ++ [p] from rfl, ih fun h' => h (List.mem_cons_of_mem a h')]

/-- The two `vertex_index` outcomes, explicitly. -/
theorem Mesh.vertex_index_cases (m : Mesh) (p : Point) :
    (p ∈ m.vertices ∧ m.vertex_index p = (m, firstIdx p m.vertices))
    ∨ (p ∉ m.vertices ∧ m.vertex_index p
        = ({ vertices := m.vertices ++ [p], faces := m.faces }, m.vertices.length)) := by
  unfold Mesh.vertex_index
  split_ifs with h
  · exact Or.inl ⟨h, rfl⟩
  · exact Or.inr ⟨h, rfl⟩

/-- The index returned by `vertex_index` addresses the updated table. -/
theorem Mesh.vertex_index_snd_lt (m : Mesh) (p : Point) :
    (m.vertex_index p).2 < (m.vertex_index p).1.vertices.length := by
  rcases Mesh.vertex_index_cases m p with ⟨h, he⟩ | ⟨h, he⟩
  · rw [he]
    simpa using firstIdx_lt_length p m.vertices h
  · rw [he]
    simp

/-- `vertex_index` never shrinks the table. -/
theorem Mesh.vertex_index_length_le (m : Mesh) (p : Point) :
    m.vertices.length ≤ (m.vertex_index p).1.vertices.length := by
  rcases Mesh.vertex_index_cases m p with ⟨-, he⟩ | ⟨-, he⟩ <;> rw [he] <;> simp

/-- `vertex_index` keeps the table deduplicated. -/
theorem Mesh.vertex_index_nodup (m : Mesh) (p : Point) (h : m.vertices.Nodup) :
    (m.vertex_index p).1.vertices.Nodup := by
  rcases Mesh.vertex_index_cases m p with ⟨-, he⟩ | ⟨hm, he⟩
  · rw [he]
    exact h
  · rw [he]
    simp only [List.nodup_append, List.nodup_cons, List.not_mem_nil, not_false_iff,
      List.nodup_nil, and_true, true_and]
    refine ⟨h, ?_⟩
    intro x hx hxp
    simp only [List.mem_singleton] at hxp
    exact hm (hxp ▸ hx)

/-- Any table position created by a `vertex_index` call is the position it
returns. -/
theorem Mesh.vertex_index_new_pos (m : Mesh) (p : Point) :
    ∀ i, m.vertices.length ≤ i → i < (m.vertex_index p).1.vertices.length →
      i = (m.vertex_index p).2 := by
  rcases Mesh.vertex_index_cases m p with ⟨-, he⟩ | ⟨-, he⟩ <;> rw [he] <;>
    intro i h1 h2 <;> simp at h2 ⊢ <;> omega

/-- `add_triangle` preserves the construction invariants. -/
theorem add_triangle_inv (m : Mesh) (p1 p2 p3 : Point) (h : MeshInv m) :
    MeshInv (m.add_triangle p1 p2 p3) := by
  obtain ⟨hnd, hval, href⟩ := h
  have e1 := Mesh.vertex_index_faces m p1
  have e2 := Mesh.vertex_index_faces (m.vertex_index p1).1 p2
  have e3 := Mesh.vertex_index_faces ((m.vertex_index p1).1.vertex_index p2).1 p3
  have l1 := Mesh.vertex_index_length_le m p1
  have l2 := Mesh.vertex_index_length_le (m.vertex_index p1).1 p2
  have l3 := Mesh.vertex_index_length_le ((m.vertex_index p1).1.vertex_index p2).1 p3
  have s1 := Mesh.vertex_index_snd_lt m p1
  have s2 := Mesh.vertex_index_snd_lt (m.vertex_index p1).1 p2
  have s3 := Mesh.vertex_index_snd_lt ((m.vertex_index p1).1.vertex_index p2).1 p3
  have n1 := Mesh.vertex_index_new_pos m p1
  have n2 := Mesh.vertex_index_new_pos (m.vertex_index p1).1 p2
  have n3 := Mesh.vertex_index_new_pos ((m.vertex_index p1).1.vertex_index p2).1 p3
  have hverts : (m.add_triangle p1 p2 p3).vertices
      = (((m.vertex_index p1).1.vertex_index p2).1.vertex_index p3).1.vertices := rfl
  have hfaces := Mesh.add_triangle_faces m p1 p2 p3
  refine ⟨?_, ?_, ?_⟩
  · rw [hverts]
    exact Mesh.vertex_index_nodup _ p3
      (Mesh.vertex_index_nodup _ p2 (Mesh.vertex_index_nodup _ p1 hnd))
  · rw [hfaces, hverts]
    intro f hf
    rcases List.mem_append.mp hf with hf | hf
    · obtain ⟨a1, a2, a3⟩ := hval f hf
      omega
    · simp only [List.mem_singleton] at hf
      subst hf
      refine ⟨?_, ?_, ?_⟩ <;> dsimp only <;> omega
  · rw [hfaces, hverts]
    intro i hi
    by_cases h0 : i < m.vertices.length
    · obtain ⟨f, hf, hor⟩ := href i h0
      exact ⟨f, List.mem_append_left _ hf, hor⟩
    · push_neg at h0
      refine ⟨_, List.mem_append_right _ (List.mem_singleton.mpr rfl), ?_⟩
      dsimp only
      by_cases h1 : i < (m.vertex_index p1).1.vertices.length
      · exact Or.inl (n1 i h0 h1).symm
      · push_neg at h1
        by_cases h2 : i < ((m.vertex_index p1).1.vertex_index p2).1.vertices.length
        · exact Or.inr (Or.inl (n2 i h1 h2).symm)
        · push_neg at h2
          exact Or.inr (Or.inr (n3 i h2 hi).symm)

/-- Construction establishes the invariants. -/
theorem built_inv (m : Mesh) (hb : Built m) : MeshInv m := by
  induction hb with
  | empty =>
    refine ⟨List.nodup_nil, ?_, ?_⟩ <;> intro x hx <;> simp [Mesh.empty] at hx
  | tri m p1 p2 p3 _ ih => exact add_triangle_inv m p1 p2 p3 ih
  | quad m p1 p2 p3 p4 _ ih =>
    exact add_triangle_inv _ p2 p3 p4 (add_triangle_inv m p1 p2 p4 ih)
  | surface m p1 p2 p3 bottom _ ih =>
    exact add_triangle_inv _ _ _ _ (add_triangle_inv m _ _ _ ih)
  | edge m p1 p2 bottom _ ih =>
    exact add_triangle_inv _ _ _ _ (add_triangle_inv m _ _ _ ih)

/-- Looking the same point up twice yields the same index. -/
theorem vertex_index_stable (m : Mesh) (p : Point) :
    ((m.vertex_index p).1.vertex_index p).2 = (m.vertex_index p).2 := by
  rcases Mesh.vertex_index_cases m p with ⟨hm, he⟩ | ⟨hm, he⟩
  · simp only [he]
  · have hmem : p ∈ (Mesh.mk (m.vertices ++ [p]) m.faces).vertices := by simp
    rcases Mesh.vertex_index_cases (Mesh.mk (m.vertices ++ [p]) m.faces) p with
      ⟨-, he2⟩ | ⟨hm2, -⟩
    · simp only [he, he2]
      exact firstIdx_append p m.vertices hm
    · exact absurd hmem hm2

/-- The rebuilt vertex table as a filtered selection of the old one. -/
theorem newVertices_eq (m : Mesh) :
    m.newVertices
      = ((List.range m.vertices.length).filter
          (fun i => decide (i ∉ m.mergedPairs.map Prod.fst))).map
          (fun i => m.vertices.getD i (0, 0, 0)) := by
  simp only [Mesh.newVertices, survivorFold]
  rw [survivor_foldl_snd]
  simp

/-- Rebuilding preserves deduplication. -/
theorem newVertices_nodup (m : Mesh) (h : m.vertices.Nodup) :
    m.newVertices.Nodup := by
  rw [newVertices_eq]
  refine List.Nodup.map_on ?_ (List.Nodup.filter _ (List.nodup_range _))
  intro x hx y hy hxy
  have hx' : x < m.vertices.length := List.mem_range.mp (List.mem_of_mem_filter hx)
  have hy' : y < m.vertices.length := List.mem_range.mp (List.mem_of_mem_filter hy)
  rw [List.getD_eq_get _ _ hx', List.getD_eq_get _ _ hy'] at hxy
  exact congrArg Fin.val ((List.Nodup.get_inj_iff h).mp hxy)

/-- Every entry of the first rewrite map addresses the rebuilt table. -/
theorem survivorFold_fst_lt (verts : List Point) (keys : List ℕ) :
    ∀ x r, (survivorFold verts keys).1 x = some r
      → r < (survivorFold verts keys).2.length := by
  have key : ∀ (l : List ℕ) (st : (ℕ → Option ℕ) × List Point),
      (∀ x r, st.1 x = some r → r < st.2.length) →
      ∀ x r, (l.foldl (survivorStep verts keys) st).1 x = some r
        → r < (l.foldl (survivorStep verts keys) st).2.length := by
    intro l
    induction l with
    | nil => intro st h; exact h
    | cons a l ih =>
      intro st h
      rw [List.foldl_cons]
      apply ih
      intro x r hx
      unfold survivorStep at hx ⊢
      split_ifs at hx ⊢ with ha
      · exact h x r hx
      · dsimp only at hx ⊢
        by_cases hxa : x = a
        · rw [if_pos hxa] at hx
          obtain rfl : st.2.length = r := by simpa using hx
          simp
        · rw [if_neg hxa] at hx
          have := h x r hx
          simp only [List.length_append, List.length_cons, List.length_nil]
          omega
  exact key _ _ (by intro x r h; cases h)

/-- Every entry of the final vertex map addresses the rebuilt table. -/
theorem vertexMap_lt (m : Mesh) (x r : ℕ) (h : m.vertexMap x = some r) :
    r < m.newVertices.length := by
  have key : ∀ (l : List (ℕ × ℕ)) (f : ℕ → Option ℕ),
      (∀ y s, f y = some s
        → s < (survivorFold m.vertices (m.mergedPairs.map Prod.fst)).2.length) →
      ∀ y s, (l.foldl remapExtend f) y = some s
        → s < (survivorFold m.vertices (m.mergedPairs.map Prod.fst)).2.length := by
    intro l
    induction l with
    | nil => intro f hf; exact hf
    | cons a l ih =>
      intro f hf
      rw [List.foldl_cons]
      apply ih
      intro y s hy
      unfold remapExtend at hy
      split_ifs at hy
      · exact hf _ _ hy
      · exact hf _ _ hy
  exact key m.mergedPairs _ (survivorFold_fst_lt m.vertices _) x r h

/-- Rewritten faces reference only rebuilt-table positions. -/
theorem newFaces_valid (m : Mesh) :
    ∀ f ∈ m.newFaces, f.2.1 < m.newVertices.length
      ∧ f.2.2.1 < m.newVertices.length ∧ f.2.2.2 < m.newVertices.length := by
  intro f hf
  simp only [Mesh.newFaces, List.mem_filterMap] at hf
  obtain ⟨a, -, hg⟩ := hf
  split at hg
  case _ x y z hx hy hz =>
    split at hg
    · exact absurd hg (by simp)
    · obtain rfl : (a.1, x, y, z) = f := by simpa using hg
      exact ⟨vertexMap_lt m _ _ hx, vertexMap_lt m _ _ hy, vertexMap_lt m _ _ hz⟩
  case _ => exact absurd hg (by simp)

/-- C7, amended: at every point of the mesh lifecycle the vertex table is
deduplicated (distinct coordinate triples at contiguous list positions in
first-seen order) and every face references table positions, and looking
up an equal-valued point twice resolves to the same index; after
construction every table entry is referenced by at least one face, but a
simplify pass — while preserving deduplication and valid references — may
leave entries referenced by no face. -/
theorem vertex_table_invariants (m : Mesh) (hb : Built m) (p : Point) :
    m.vertices.Nodup
    ∧ (∀ f ∈ m.faces, f.2.1 < m.vertices.length
        ∧ f.2.2.1 < m.vertices.length ∧ f.2.2.2 < m.vertices.length)
    ∧ (∀ i < m.vertices.length, ∃ f ∈ m.faces,
        f.2.1 = i ∨ f.2.2.1 = i ∨ f.2.2.2 = i)
    ∧ ((m.vertex_index p).1.vertex_index p).2 = (m.vertex_index p).2
    ∧ (Mesh.simplify m).1.vertices.Nodup
    ∧ (∀ f ∈ (Mesh.simplify m).1.faces,
        f.2.1 < (Mesh.simplify m).1.vertices.length
        ∧ f.2.2.1 < (Mesh.simplify m).1.vertices.length
        ∧ f.2.2.2 < (Mesh.simplify m).1.vertices.length) := by
  obtain ⟨hnd, hval, href⟩ := built_inv m hb
  exact ⟨hnd, hval, href, vertex_index_stable m p,
    newVertices_nodup m hnd, newFaces_valid m⟩

/-- The mesh built from a single triangle. -/
def triOnlyMesh : Mesh := Mesh.empty.add_triangle (0,0,0) (1,0,0) (0,1,0)

/-- C7, counterexample to the claim at the `after each simplify pass`
lifecycle point: simplifying the one-triangle mesh merges a vertex, drops
the then-degenerate face, and leaves two table entries referenced by no
face — so the table no longer has exactly one entry per triple referenced
by at least one face. -/
theorem vertex_table_counterexample :
    Built triOnlyMesh
    ∧ (∀ i < triOnlyMesh.vertices.length, ∃ f ∈ triOnlyMesh.faces,
        f.2.1 = i ∨ f.2.2.1 = i ∨ f.2.2.2 = i)
    ∧ ¬ (∀ i < (Mesh.simplify triOnlyMesh).1.vertices.length,
        ∃ f ∈ (Mesh.simplify triOnlyMesh).1.faces,
          f.2.1 = i ∨ f.2.2.1 = i ∨ f.2.2.2 = i) := by
  have htri : triOnlyMesh
      = ⟨[(0,0,0), (1,0,0), (0,1,0)], [((0,0,1), 0, 1, 2)]⟩ := by
    simp [triOnlyMesh, Mesh.add_triangle, Mesh.vertex_index, Mesh.empty, triangleNormal,
      triangleNormal?, triangleCross]
  refine ⟨Built.tri _ _ _ _ Built.empty, ?_, ?_⟩
  · rw [htri]
    decide
  · rw [htri]
    decide

/-- C7, witness: the amended invariants evaluated on the one-triangle
mesh. -/
theorem vertex_table_invariants_witness :
    triOnlyMesh.vertices.Nodup
    ∧ (∀ f ∈ triOnlyMesh.faces, f.2.1 < triOnlyMesh.vertices.length
        ∧ f.2.2.1 < triOnlyMesh.vertices.length
        ∧ f.2.2.2 < triOnlyMesh.vertices.length)
    ∧ (∀ i < triOnlyMesh.vertices.length, ∃ f ∈ triOnlyMesh.faces,
        f.2.1 = i ∨ f.2.2.1 = i ∨ f.2.2.2 = i)
    ∧ ((triOnlyMesh.vertex_index (0,0,0)).1.vertex_index (0,0,0)).2
        = (triOnlyMesh.vertex_index (0,0,0)).2
    ∧ (Mesh.simplify triOnlyMesh).1.vertices.Nodup
    ∧ (∀ f ∈ (Mesh.simplify triOnlyMesh).1.faces,
        f.2.1 < (Mesh.simplify triOnlyMesh).1.vertices.length
        ∧ f.2.2.1 < (Mesh.simplify triOnlyMesh).1.vertices.length
        ∧ f.2.2.2 < (Mesh.simplify triOnlyMesh).1.vertices.length) :=
  vertex_table_invariants triOnlyMesh (Built.tri _ _ _ _ Built.empty) (0,0,0)

/- ---------------------------------------------------------------------
C2.  The binary STL serializer (`Mesh.save`).
--------------------------------------------------------------------- -/

/-- `struct.pack("<H", n)`: two little-endian bytes. -/
def u16le (n : ℕ) : List UInt8 :=
  [UInt8.ofNat (n % 256), UInt8.ofNat (n / 256 % 256)]

/-- `struct.pack("<L", n)`: four little-endian bytes. -/
def u32le (n : ℕ) : List UInt8 :=
  [UInt8.ofNat (n % 256), UInt8.ofNat (n / 256 % 256),
   UInt8.ofNat (n / 65536 % 256), UInt8.ofNat (n / 16777216 % 256)]

/-- Little-endian byte-string decoder (specification side, to state that
the count field holds the face count). -/
def decodeLE (l : List UInt8) : ℕ := l.foldr (fun b acc => b.toNat + 256 * acc) 0

/-- Sequential fallible mapping: the whole output exists only if every
element encodes (Python instead raises midway, leaving a partial file —
`none` models the absence of a complete output). -/
def seqOpt {α β : Type} (g : α → Option β) : List α → Option (List β)
  | [] => some []
  | a :: l =>
    match g a, seqOpt g l with
    | some b, some bs => some (b :: bs)
    | _, _ => none

/-- One 50-byte facet record: 12 little-endian 32-bit floats — normal
(x,y,z), then the three looked-up vertices — then the 2-byte integer 0.
The float encoding `enc` is a parameter: `struct.pack("<f", x)` always
yields 4 bytes, which is the only property the layout uses (IEEE-754
rounding itself is outside this exact-arithmetic embedding). A bad vertex
index (Python `IndexError` on `vertex_list[i]`) yields `none`. -/
def faceRecord (enc : ℚ → List UInt8) (verts : List Point) (f : Face) :
    Option (List UInt8) :=
  match verts.get? f.2.1, verts.get? f.2.2.1, verts.get? f.2.2.2 with
  | some v1, some v2, some v3 =>
      some ((enc f.1.1 ++ enc f.1.2.1 ++ enc f.1.2.2
        ++ enc v1.1 ++ enc v1.2.1 ++ enc v1.2.2
        ++ enc v2.1 ++ enc v2.2.1 ++ enc v2.2.2
        ++ enc v3.1 ++ enc v3.2.1 ++ enc v3.2.2) ++ u16le 0)
  | _, _, _ => none

/-- `Mesh.save`: 80 header bytes (`b" " * 80`), the 4-byte little-endian
face count, then the facet records in face-list order. -/
def Mesh.save (m : Mesh) (enc : ℚ → List UInt8) : Option (List UInt8) :=
  (seqOpt (faceRecord enc m.vertices) m.faces).map
    fun recs => List.replicate 80 (32 : UInt8) ++ u32le m.faces.length ++ recs.flatten

/-- Total mapping exists whenever every element encodes, and it pairs the
inputs with their encodings in order. -/
theorem seqOpt_some {α β : Type} (g : α → Option β) (l : List α)
    (h : ∀ a ∈ l, ∃ b, g a = some b) :
    ∃ bs, seqOpt g l = some bs ∧ List.Forall₂ (fun a b => g a = some b) l bs := by
  induction l with
  | nil => exact ⟨[], rfl, List.Forall₂.nil⟩
  | cons a l ih =>
    obtain ⟨b, hb⟩ := h a (List.mem_cons_self a l)
    obtain ⟨bs, hbs, hall⟩ := ih fun x hx => h x (List.mem_cons_of_mem a hx)
    refine ⟨b :: bs, ?_, List.Forall₂.cons hb hall⟩
    simp [seqOpt, hb, hbs]

/-- Concatenating uniform 50-byte records multiplies. -/
theorem flatten_length_const (recs : List (List UInt8))
    (h : ∀ r ∈ recs, r.length = 50) : recs.flatten.length = 50 * recs.length := by
  induction recs with
  | nil => simp
  | cons r recs ih =>
    rw [List.flatten_cons, List.length_append, h r (List.mem_cons_self r recs),
      ih fun x hx => h x (List.mem_cons_of_mem r hx)]
    simp [List.length_cons]
    ring

/-- Every record a face encodes to is 50 bytes ending in the 2-byte 0. -/
theorem faceRecord_shape (enc : ℚ → List UInt8) (henc : ∀ x, (enc x).length = 4)
    (verts : List Point) (f : Face) (r : List UInt8)
    (h : faceRecord enc verts f = some r) :
    r.length = 50 ∧ r.drop 48 = u16le 0 := by
  unfold faceRecord at h
  split at h
  case _ v1 v2 v3 hv1 hv2 hv3 =>
    obtain rfl := Option.some.inj h
    constructor
    · simp [List.length_append, henc, u16le]
    · have hpre : (enc f.1.1 ++ enc f.1.2.1 ++ enc f.1.2.2
          ++ enc v1.1 ++ enc v1.2.1 ++ enc v1.2.2
          ++ enc v2.1 ++ enc v2.2.1 ++ enc v2.2.2
          ++ enc v3.1 ++ enc v3.2.1 ++ enc v3.2.2).length = 48 := by
        simp [List.length_append, henc]
      rw [← hpre, List.drop_left]
  case _ => cases h

/-- Right-hand members of a `Forall₂` come from related left members. -/
theorem forall₂_mem_right {α β : Type} {R : α → β → Prop} {l₁ : List α}
    {l₂ : List β} (h : List.Forall₂ R l₁ l₂) (b : β) (hb : b ∈ l₂) :
    ∃ a ∈ l₁, R a b := by
  induction h with
  | nil => cases hb
  | cons hab htail ih =>
    rcases List.mem_cons.mp hb with rfl | hb'
    · exact ⟨_, List.mem_cons_self _ _, hab⟩
    · obtain ⟨a, ha, hr⟩ := ih hb'
      exact ⟨a, List.mem_cons_of_mem _ ha, hr⟩

/-- The 4-byte little-endian field decodes back to any count below 2³². -/
theorem decode_u32le (n : ℕ) (h : n < 4294967296) : decodeLE (u32le n) = n := by
  have hr : decodeLE (u32le n)
      = n % 256 % 256 + 256 * (n / 256 % 256 % 256
        + 256 * (n / 65536 % 256 % 256 + 256 * (n / 16777216 % 256 % 256 + 256 * 0))) :=
    rfl
  rw [hr]
  omega

/-- C2: for every mesh whose faces reference table entries (the data
model's invariant) and whose face count fits the 4-byte field,
serialization produces exactly an 80-byte header, a 4-byte little-endian
unsigned integer decoding to the face count, and one 50-byte record per
face in face-list order — 12 four-byte floats (normal, then vertex1,
vertex2, vertex3) followed by the two-byte integer 0 — for a total of
exactly `84 + 50 × face_count` bytes. -/
theorem save_layout (m : Mesh) (enc : ℚ → List UInt8)
    (henc : ∀ x, (enc x).length = 4)
    (hvalid : ∀ f ∈ m.faces, f.2.1 < m.vertices.length
      ∧ f.2.2.1 < m.vertices.length ∧ f.2.2.2 < m.vertices.length)
    (hcount : m.faces.length < 4294967296) :
    ∃ recs : List (List UInt8),
      Mesh.save m enc
        = some (List.replicate 80 (32 : UInt8) ++ u32le m.faces.length ++ recs.flatten)
      ∧ recs.length = m.faces.length
      ∧ (∀ r ∈ recs, r.length = 50)
      ∧ List.Forall₂ (fun f r => faceRecord enc m.vertices f = some r) m.faces recs
      ∧ (∀ r ∈ recs, r.drop 48 = u16le 0)
      ∧ decodeLE (u32le m.faces.length) = m.faces.length
      ∧ ∀ bytes, Mesh.save m enc = some bytes
          → bytes.length = 84 + 50 * m.faces.length := by
  have hrec : ∀ f ∈ m.faces, ∃ r, faceRecord enc m.vertices f = some r := by
    intro f hf
    obtain ⟨h1, h2, h3⟩ := hvalid f hf
    have hs : (faceRecord enc m.vertices f).isSome := by
      unfold faceRecord
      rw [List.get?_eq_get h1, List.get?_eq_get h2, List.get?_eq_get h3]
      rfl
    exact Option.isSome_iff_exists.mp hs
  obtain ⟨recs, hseq, hall⟩ := seqOpt_some _ _ hrec
  have hlen50 : ∀ r ∈ recs, r.length = 50 := by
    intro r hr
    obtain ⟨f, -, hfr⟩ := forall₂_mem_right hall r hr
    exact (faceRecord_shape enc henc m.vertices f r hfr).1
  refine ⟨recs, ?_, (List.Forall₂.length_eq hall).symm, hlen50, hall, ?_,
    decode_u32le _ hcount, ?_⟩
  · rw [Mesh.save, hseq]
    exact rfl
  · intro r hr
    obtain ⟨f, -, hfr⟩ := forall₂_mem_right hall r hr
    exact (faceRecord_shape enc henc m.vertices f r hfr).2
  · intro bytes hbytes
    rw [Mesh.save, hseq] at hbytes
    have hb2 : List.replicate 80 (32 : UInt8) ++ u32le m.faces.length
        ++ recs.flatten = bytes := by
      simpa using hbytes
    rw [← hb2, List.length_append, List.length_append, flatten_length_const recs hlen50,
      List.length_replicate, ← List.Forall₂.length_eq hall]
    simp only [u32le, List.length_cons, List.length_nil]

/-- C2, witness: the layout theorem on `bentPairMesh` with a constant
4-byte encoder. -/
theorem save_layout_witness :
    (∀ x : ℚ, ((fun _ : ℚ => ([0, 0, 0, 0] : List UInt8)) x).length = 4)
    ∧ (∀ f ∈ bentPairMesh.faces, f.2.1 < bentPairMesh.vertices.length
        ∧ f.2.2.1 < bentPairMesh.vertices.length
        ∧ f.2.2.2 < bentPairMesh.vertices.length)
    ∧ bentPairMesh.faces.length < 4294967296
    ∧ ∃ recs : List (List UInt8),
        Mesh.save bentPairMesh (fun _ => [0, 0, 0, 0])
          = some (List.replicate 80 (32 : UInt8)
              ++ u32le bentPairMesh.faces.length ++ recs.flatten)
        ∧ recs.length = bentPairMesh.faces.length
        ∧ (∀ r ∈ recs, r.length = 50)
        ∧ List.Forall₂
            (fun f r => faceRecord (fun _ => [0, 0, 0, 0]) bentPairMesh.vertices f = some r)
            bentPairMesh.faces recs
        ∧ (∀ r ∈ recs, r.drop 48 = u16le 0)
        ∧ decodeLE (u32le bentPairMesh.faces.length) = bentPairMesh.faces.length
        ∧ ∀ bytes, Mesh.save bentPairMesh (fun _ => [0, 0, 0, 0]) = some bytes
            → bytes.length = 84 + 50 * bentPairMesh.faces.length :=
  ⟨fun _ => rfl, by decide, by decide,
    save_layout bentPairMesh (fun _ => [0, 0, 0, 0]) (fun _ => rfl) (by decide) (by decide)⟩

/- ---------------------------------------------------------------------
The triangulation loop of `realise`.
--------------------------------------------------------------------- -/

/-- One mesh call recorded by the triangulation loop. -/
inductive MeshOp : Type where
  | surface (p1 p2 p3 : Point) (bottom : ℚ)
  | edge (p1 p2 : Point) (bottom : ℚ)
deriving DecidableEq

/-- Replay a recorded call on the mesh. -/
def applyOp (m : Mesh) : MeshOp → Mesh
  | .surface p1 p2 p3 bottom => m.add_surface p1 p2 p3 bottom
  | .edge p1 p2 bottom => m.add_edge p1 p2 bottom

/-- Replay a call sequence (the calls never read the mesh, so collecting
them first is equivalent to the source's interleaved mutation). -/
def applyOps (m : Mesh) (ops : List MeshOp) : Mesh := ops.foldl applyOp m

/-- The point a neighbour tuple stands for when passed to a mesh
primitive (only ever used under a guard establishing the value). -/
def deref (x : ℤ × ℤ × Option ℚ) : Point :=
  ((x.1 : ℚ), (x.2.1 : ℚ), x.2.2.getD 0)

/-- The four triangle blocks executed for one present centre cell, with
their guards, surfaces and walls in exact source order. -/
def cellOps (c : Point) (t tr tl l r bl b br : ℤ × ℤ × Option ℚ)
    (bottom : ℚ) : List MeshOp :=
  (if r.2.2.isSome ∧ b.2.2.isSome then
    [.surface c (deref r) (deref b) bottom]
    ++ (if br.2.2 = none then [.edge (deref b) (deref r) bottom] else [])
    ++ (if t.2.2 = none ∧ tr.2.2 = none then [.edge (deref r) c bottom] else [])
    ++ (if l.2.2 = none ∧ bl.2.2 = none then [.edge c (deref b) bottom] else [])
  else [])
  ++ (if t.2.2.isSome ∧ l.2.2.isSome then
    [.surface (deref t) c (deref l) bottom]
    ++ (if tl.2.2 = none then [.edge (deref t) (deref l) bottom] else [])
    ++ (if r.2.2 = none ∧ tr.2.2 = none then [.edge c (deref t) bottom] else [])
    ++ (if b.2.2 = none ∧ bl.2.2 = none then [.edge (deref l) c bottom] else [])
  else [])
  ++ (if t.2.2.isSome ∧ r.2.2.isSome ∧ tr.2.2 = none then
    [.surface (deref t) (deref r) c bottom]
    ++ [.edge (deref r) (deref t) bottom]
    ++ (if l.2.2 = none ∧ tl.2.2 = none then [.edge (deref t) c bottom] else [])
    ++ (if b.2.2 = none ∧ br.2.2 = none then [.edge c (deref r) bottom] else [])
  else [])
  ++ (if l.2.2.isSome ∧ b.2.2.isSome ∧ bl.2.2 = none then
    [.surface (deref l) c (deref b) bottom]
    ++ [.edge (deref l) (deref b) bottom]
    ++ (if r.2.2 = none ∧ br.2.2 = none then [.edge (deref b) c bottom] else [])
    ++ (if t.2.2 = none ∧ tr.2.2 = none then [.edge c (deref l) bottom] else [])
  else [])

/-- The calls one loop iteration makes for the cell at `(i, j)`: clamp the
centre value (`if NODATA < value < minimum: value = minimum`), then, when
the centre is present (`value > NODATA`), classify the eight neighbours
and run the four blocks. -/
def cellOpsAt (arr : Grid) (NODATA minimum bottom : ℚ) (i j : ℤ) : List MeshOp :=
  let raw := arr.val i j
  let value := if NODATA < raw ∧ raw < minimum then minimum else raw
  if NODATA < value then
    cellOps ((i : ℚ), (j : ℚ), value)
      (get_neighbour_value (i, j - 1) arr NODATA)
      (get_neighbour_value (i + 1, j - 1) arr NODATA)
      (get_neighbour_value (i - 1, j - 1) arr NODATA)
      (get_neighbour_value (i - 1, j) arr NODATA)
      (get_neighbour_value (i + 1, j) arr NODATA)
      (get_neighbour_value (i - 1, j + 1) arr NODATA)
      (get_neighbour_value (i, j + 1) arr NODATA)
      (get_neighbour_value (i + 1, j + 1) arr NODATA)
      bottom
  else []

/-- `numpy.ndenumerate` order: all indices in row-major order (numpy
indices are the naturals below each extent). -/
def gridIndices (arr : Grid) : List (ℕ × ℕ) :=
  (List.range arr.dim0).flatMap fun i =>
    (List.range arr.dim1).map fun j => (i, j)

/-- The whole triangulation pass of `realise`: fold every cell's calls
over the empty mesh. -/
def realiseMesh (arr : Grid) (NODATA minimum bottom : ℚ) : Mesh :=
  applyOps Mesh.empty
    ((gridIndices arr).flatMap fun ij =>
      cellOpsAt arr NODATA minimum bottom (ij.1 : ℤ) (ij.2 : ℤ))

/- ---------------------------------------------------------------------
C8.  An isolated cell contributes no geometry.
--------------------------------------------------------------------- -/

/-- Indices enumerated by the loop are in bounds. -/
theorem mem_gridIndices (arr : Grid) (p : ℕ × ℕ) (hp : p ∈ gridIndices arr) :
    p.1 < arr.dim0 ∧ p.2 < arr.dim1 := by
  unfold gridIndices at hp
  simp only [List.mem_flatMap, List.mem_map, List.mem_range] at hp
  obtain ⟨i, hi, j, hj, rfl⟩ := hp
  exact ⟨hi, hj⟩

/-- C8: a grid with exactly one cell above the sentinel (all other
in-bounds cells at or below it) triangulates to a mesh with no faces and
no vertices: the lone cell's eight neighbours are all absent, so none of
the four triangle conditions fires. -/
theorem isolated_cell_no_geometry (arr : Grid) (NODATA minimum bottom : ℚ)
    (i0 j0 : ℤ) (hpresent : NODATA < arr.val i0 j0)
    (hothers : ∀ i j : ℤ, 0 ≤ i → i < (arr.dim0 : ℤ) → 0 ≤ j → j < (arr.dim1 : ℤ) →
      (i, j) ≠ (i0, j0) → arr.val i j ≤ NODATA) :
    (realiseMesh arr NODATA minimum bottom).faces = []
    ∧ (realiseMesh arr NODATA minimum bottom).vertices = [] := by
  have hnbr : ∀ a b : ℤ, (a, b) ≠ (i0, j0) →
      (get_neighbour_value (a, b) arr NODATA).2.2 = none := by
    intro a b hab
    unfold get_neighbour_value
    split_ifs with h1 h2
    · rfl
    · rfl
    · push_neg at h1
      exact absurd (hothers a b h1.1 h1.2.1 h1.2.2.1 h1.2.2.2 hab) h2
  have hcell : ∀ p ∈ gridIndices arr,
      cellOpsAt arr NODATA minimum bottom (p.1 : ℤ) (p.2 : ℤ) = [] := by
    intro p hp
    obtain ⟨hb1, hb2⟩ := mem_gridIndices arr p hp
    by_cases hc : ((p.1 : ℤ), (p.2 : ℤ)) = (i0, j0)
    · have h1 : (p.1 : ℤ) = i0 := congrArg Prod.fst hc
      have h2 : (p.2 : ℤ) = j0 := congrArg Prod.snd hc
      have ht := hnbr (p.1 : ℤ) ((p.2 : ℤ) - 1)
        (by rw [← h1, ← h2]; simp only [ne_eq, Prod.mk.injEq, not_and]; intro _; omega)
      have hr := hnbr ((p.1 : ℤ) + 1) (p.2 : ℤ)
        (by rw [← h1, ← h2]; simp only [ne_eq, Prod.mk.injEq, not_and]; intro h; omega)
      have hl := hnbr ((p.1 : ℤ) - 1) (p.2 : ℤ)
        (by rw [← h1, ← h2]; simp only [ne_eq, Prod.mk.injEq, not_and]; intro h; omega)
      have hb := hnbr (p.1 : ℤ) ((p.2 : ℤ) + 1)
        (by rw [← h1, ← h2]; simp only [ne_eq, Prod.mk.injEq, not_and]; intro _; omega)
      simp only [cellOpsAt]
      split_ifs <;> first
        | rfl
        | simp [cellOps, ht, hr, hl, hb]
    · have hle : arr.val (p.1 : ℤ) (p.2 : ℤ) ≤ NODATA := by
        refine hothers _ _ (by positivity) (by exact_mod_cast hb1)
          (by positivity) (by exact_mod_cast hb2) hc
      have hclamp : ¬(NODATA < arr.val (p.1 : ℤ) (p.2 : ℤ)
          ∧ arr.val (p.1 : ℤ) (p.2 : ℤ) < minimum) :=
        fun hcl => absurd hcl.1 (not_lt.mpr hle)
      simp only [cellOpsAt]
      rw [if_neg hclamp, if_neg (not_lt.mpr hle)]
  have hops : ((gridIndices arr).flatMap
      fun ij => cellOpsAt arr NODATA minimum bottom (ij.1 : ℤ) (ij.2 : ℤ)) = [] := by
    rw [List.flatMap_eq_nil_iff]
    exact fun p hp => hcell p hp
  rw [realiseMesh, hops]
  exact ⟨rfl, rfl⟩

/-- C8, witness: the 1×1 grid holding a single value above the sentinel
produces the empty mesh. -/
theorem isolated_cell_no_geometry_witness :
    (realiseMesh ⟨1, 1, fun _ _ => 1⟩ 0 0 (-1)).faces = []
    ∧ (realiseMesh ⟨1, 1, fun _ _ => 1⟩ 0 0 (-1)).vertices = [] :=
  isolated_cell_no_geometry ⟨1, 1, fun _ _ => 1⟩ 0 0 (-1) 0 0 (by decide)
    (by
      intro i j h1 h2 h3 h4 h5
      exfalso
      apply h5
      have h2' : i < 1 := by exact_mod_cast h2
      have h4' : j < 1 := by exact_mod_cast h4
      have hi : i = 0 := by omega
      have hj : j = 0 := by omega
      rw [hi, hj])

/- ---------------------------------------------------------------------
C5.  The top-right-centre triangle block.
--------------------------------------------------------------------- -/

/-- The classification echoes the queried coordinates in its tuple. -/
theorem deref_gnv (arr : Grid) (nd : ℚ) (a b : ℤ) :
    deref (get_neighbour_value (a, b) arr nd)
      = ((a : ℚ), (b : ℚ), ((get_neighbour_value (a, b) arr nd).2.2.getD 0)) := by
  unfold deref get_neighbour_value
  split_ifs <;> rfl

set_option maxHeartbeats 2000000 in
/-- C5: for a present centre `(i, j)` whose neighbours `t` and `r` are
present while the diagonal `tr` is absent, the loop emits the surface
triangle `(t, r, c)` (hence, by `add_surface`, its mirrored base too) and
always the wall from `r` to `t`; it emits the left wall `(t → c)` exactly
when `l` and `tl` are both absent, and the bottom wall `(c → r)` exactly
when `b` and `br` are both absent. -/
theorem top_right_center_triangle (arr : Grid) (NODATA minimum bottom : ℚ)
    (i j : ℤ)
    (hin0 : 0 ≤ i) (hin1 : i < (arr.dim0 : ℤ)) (hin2 : 0 ≤ j) (hin3 : j < (arr.dim1 : ℤ))
    (hc : NODATA < arr.val i j) (vt vr : ℚ)
    (ht : (get_neighbour_value (i, j - 1) arr NODATA).2.2 = some vt)
    (hr : (get_neighbour_value (i + 1, j) arr NODATA).2.2 = some vr)
    (htr : (get_neighbour_value (i + 1, j - 1) arr NODATA).2.2 = none) :
    MeshOp.surface ((i : ℚ), ((j - 1 : ℤ) : ℚ), vt) (((i + 1 : ℤ) : ℚ), (j : ℚ), vr)
        ((i : ℚ), (j : ℚ),
          if NODATA < arr.val i j ∧ arr.val i j < minimum then minimum else arr.val i j)
        bottom
      ∈ cellOpsAt arr NODATA minimum bottom i j
    ∧ MeshOp.edge (((i + 1 : ℤ) : ℚ), (j : ℚ), vr) ((i : ℚ), ((j - 1 : ℤ) : ℚ), vt) bottom
      ∈ cellOpsAt arr NODATA minimum bottom i j
    ∧ (MeshOp.edge ((i : ℚ), ((j - 1 : ℤ) : ℚ), vt)
        ((i : ℚ), (j : ℚ),
          if NODATA < arr.val i j ∧ arr.val i j < minimum then minimum else arr.val i j)
        bottom ∈ cellOpsAt arr NODATA minimum bottom i j
      ↔ (get_neighbour_value (i - 1, j) arr NODATA).2.2 = none
        ∧ (get_neighbour_value (i - 1, j - 1) arr NODATA).2.2 = none)
    ∧ (MeshOp.edge
        ((i : ℚ), (j : ℚ),
          if NODATA < arr.val i j ∧ arr.val i j < minimum then minimum else arr.val i j)
        (((i + 1 : ℤ) : ℚ), (j : ℚ), vr) bottom ∈ cellOpsAt arr NODATA minimum bottom i j
      ↔ (get_neighbour_value (i, j + 1) arr NODATA).2.2 = none
        ∧ (get_neighbour_value (i + 1, j + 1) arr NODATA).2.2 = none) := by
  have hval : NODATA <
      (if NODATA < arr.val i j ∧ arr.val i j < minimum then minimum else arr.val i j) := by
    split_ifs with h
    · exact lt_trans hc h.2
    · exact hc
  have hts : ((get_neighbour_value (i, j - 1) arr NODATA).2.2).isSome = true := by
    rw [ht]; rfl
  have hrs : ((get_neighbour_value (i + 1, j) arr NODATA).2.2).isSome = true := by
    rw [hr]; rfl
  have a1 : ¬(j - 1 = j) := by omega
  have a2 : ¬(j = j - 1) := by omega
  have a3 : ¬(i + 1 = i) := by omega
  have a4 : ¬(i = i + 1) := by omega
  have a5 : ¬(i - 1 = i) := by omega
  have a6 : ¬(i = i - 1) := by omega
  have a7 : ¬(j + 1 = j) := by omega
  have a8 : ¬(j = j + 1) := by omega
  have a9 : ¬(i + 1 = i - 1) := by omega
  have a10 : ¬(i - 1 = i + 1) := by omega
  have a11 : ¬(j - 1 = j + 1) := by omega
  have a12 : ¬(j + 1 = j - 1) := by omega
  simp only [cellOpsAt]
  rw [if_pos hval]
  simp only [cellOps, deref_gnv, ht, hr, htr, hts, hrs, Option.getD_some,
    mem_ite_nil, List.mem_append, List.mem_cons, List.mem_singleton,
    List.not_mem_nil, or_false, false_or, and_true, true_and, and_false, false_and,
    if_true, if_false, MeshOp.surface.injEq, MeshOp.edge.injEq, Prod.mk.injEq,
    Int.cast_inj, a1, a2, a3, a4, a5, a6, a7, a8, a9, a10, a11, a12,
    Option.isSome_some, Option.some_ne_none, not_false_iff, eq_self_iff_true]
  tauto

/-- 2×2 grid whose bottom-left sample (index (1,0)) is below the
sentinel 0 — viewed from cell (0,1), neighbours `t` and `r` are present
and the diagonal `tr` is absent. -/
def cornerGrid : Grid := ⟨2, 2, fun i j => if i = 1 ∧ j = 0 then -1 else 1⟩

/-- C5, witness: the top-right-centre block fires on `cornerGrid` at
cell (0,1). -/
theorem top_right_center_triangle_witness :
    (0 : ℚ) < cornerGrid.val 0 1
    ∧ (get_neighbour_value (0, 1 - 1) cornerGrid 0).2.2 = some 1
    ∧ (get_neighbour_value (0 + 1, 1) cornerGrid 0).2.2 = some 1
    ∧ (get_neighbour_value (0 + 1, 1 - 1) cornerGrid 0).2.2 = none
    ∧ MeshOp.surface (((0 : ℤ) : ℚ), (((1 : ℤ) - 1 : ℤ) : ℚ), 1)
        ((((0 : ℤ) + 1 : ℤ) : ℚ), ((1 : ℤ) : ℚ), 1)
        (((0 : ℤ) : ℚ), ((1 : ℤ) : ℚ),
          if (0 : ℚ) < cornerGrid.val 0 1 ∧ cornerGrid.val 0 1 < 0 then 0
          else cornerGrid.val 0 1)
        (-1)
      ∈ cellOpsAt cornerGrid 0 0 (-1) 0 1 :=
  ⟨by decide, by decide, by decide, by decide,
    (top_right_center_triangle cornerGrid 0 0 (-1) 0 1 (by decide) (by decide)
      (by decide) (by decide) (by decide) 1 1 (by decide) (by decide) (by decide)).1⟩
